import Mathlib

/-!
Verification development for the `polarity` repository: the GitHub
issue/pull-request vectorization service.  The definitions below are a shallow
embedding of the sync/merge engine and its helpers, translated from the
TypeScript sources:

* `apps/api/src/routes/repositories/routes.ts` — the sync handler (fetch,
  hash-diff, embed, merge, compress, store, metadata update) and the submit
  handler;
* `apps/api/src/routes/repositories/queries.ts` — the GraphQL fetch queries;
* `apps/api/src/lib/hash.ts` — `hashPr` (SHA-256 of the normalized PR text);
* `apps/api/src/lib/compression.ts` — gzip plumbing around the platform codec;
* `packages/shared` — the repository metadata schema and the GitHub URL
  validator/parser.

JS objects keyed by id are modelled as association lists (only key
presence/values matter, iteration order does not); embedding vectors are an
opaque type parameter (their float contents are never inspected by the code
under verification); the platform pieces that are not repository code
(`TextEncoder`/`TextDecoder`, `CompressionStream`) are modelled from the spec
and marked as such.
-/

namespace Polarity

/-! ### JS keyed-object maps, as association lists -/

/-- Lookup `m[k]` in a JS-object-like keyed map, modelled as an association
list.  Only key presence and values are meaningful; iteration order is an
implementation detail the merge algorithm does not depend on. -/
def objGet {α : Type} (m : List (String × α)) (k : String) : Option α :=
  (m.find? (fun e => e.fst == k)).map (·.snd)

/-- Assignment `m[k] = v`: the entry for `k` (if any) is replaced, otherwise a
new entry is added. -/
def objSet {α : Type} (m : List (String × α)) (k : String) (v : α) :
    List (String × α) :=
  (m.filter (fun e => e.fst != k)) ++ [(k, v)]

/-- Deletion `delete m[k]`. -/
def objDel {α : Type} (m : List (String × α)) (k : String) : List (String × α) :=
  m.filter (fun e => e.fst != k)

/-! ### GitHub records, as selected by the GraphQL queries (`queries.ts`) -/

/-- Issue state as delivered by the GitHub GraphQL API (`queries.ts`). -/
inductive IssueState where
  | OPEN
  | CLOSED
deriving DecidableEq, Repr

/-- Pull-request state as delivered by the GitHub GraphQL API (`queries.ts`). -/
inductive PrState where
  | OPEN
  | CLOSED
  | MERGED
deriving DecidableEq, Repr

/-- One node of `files(first: 100) { nodes { path } }`. -/
structure GhFile where
  path : String
deriving DecidableEq, Repr

/-- The `Issue` record selected by `FETCH_ISSUES_QUERY` (`queries.ts`). -/
structure GhIssue where
  id : String
  number : Nat
  title : String
  bodyText : String
  state : IssueState
deriving DecidableEq, Repr

/-- The `PullRequest` record selected by `FETCH_PULL_REQUESTS_QUERY`
(`queries.ts`). -/
structure GhPullRequest where
  id : String
  number : Nat
  title : String
  bodyText : String
  state : PrState
  files : List GhFile
deriving DecidableEq, Repr

/-! ### Content normalizer -/

/-- Modelled from the spec: the implementation of `prepIssue` is absent from
`src/` (only its tests remain in `lib/embedding.ts`); §4.3 of the spec and the
tests fix it as `title + "\n\n" + body`. -/
def prepIssue (i : GhIssue) : String :=
  i.title ++ "\n\n" ++ i.bodyText

/-- Modelled from the spec: the implementation of `prepPullRequest` is absent
from `src/` (only its tests remain in `lib/embedding.ts`); §4.3 of the spec and
the tests fix it as `title + "\n\n" + body + "\n\n" + join(filePaths, "\n")`,
with the file paths in fetched order. -/
def prepPullRequest (pr : GhPullRequest) : String :=
  pr.title ++ "\n\n" ++ pr.bodyText ++ "\n\n" ++
    String.intercalate "\n" (pr.files.map GhFile.path)

/-! ### UTF-8 encoding

Modelled from the spec: `hash.ts` and `compression.ts` feed strings through the
platform `TextEncoder`, which is not repository code; this is the standard
UTF-8 encoding of Unicode scalar values. -/

/-- Modelled from the spec: standard UTF-8 encoding of one scalar value, as
performed by the platform `TextEncoder`. -/
def utf8EncodeChar (c : Char) : List Nat :=
  let n := c.toNat
  if n < 128 then [n]
  else if n < 2048 then [192 + n / 64, 128 + n % 64]
  else if n < 65536 then [224 + n / 4096, 128 + (n / 64) % 64, 128 + n % 64]
  else [240 + n / 262144, 128 + (n / 4096) % 64, 128 + (n / 64) % 64, 128 + n % 64]

/-- Modelled from the spec: the platform `TextEncoder.encode`, i.e. UTF-8 bytes
of the whole string. -/
def utf8Encode (s : String) : List Nat :=
  (s.toList.map utf8EncodeChar).flatten

/-! ### SHA-256 (`hash.ts` digests via `crypto.subtle.digest("SHA-256", …)`)

The digest itself is the platform WebCrypto primitive; it is the standard
FIPS 180-4 SHA-256, embedded here executably over byte lists, with 32-bit
words as `Nat` reduced explicitly modulo `2 ^ 32`. -/

/-- Truncate to a 32-bit word. -/
def w32 (n : Nat) : Nat := n % 4294967296

/-- Right-rotation of a 32-bit word, arithmetically. -/
def rotr32 (n x : Nat) : Nat := w32 (x / 2 ^ n + x % 2 ^ n * 2 ^ (32 - n))

/-- SHA-256 `Ch(x,y,z)`; the complement is taken within 32 bits. -/
def shaCh (x y z : Nat) : Nat := (x &&& y) ^^^ ((4294967295 - w32 x) &&& z)

/-- SHA-256 `Maj(x,y,z)`. -/
def shaMaj (x y z : Nat) : Nat := (x &&& y) ^^^ (x &&& z) ^^^ (y &&& z)

/-- SHA-256 `Σ₀`. -/
def bigSigma0 (x : Nat) : Nat := rotr32 2 x ^^^ rotr32 13 x ^^^ rotr32 22 x

/-- SHA-256 `Σ₁`. -/
def bigSigma1 (x : Nat) : Nat := rotr32 6 x ^^^ rotr32 11 x ^^^ rotr32 25 x

/-- SHA-256 `σ₀` (`rotr 7 ^ rotr 18 ^ shr 3`). -/
def smallSigma0 (x : Nat) : Nat := rotr32 7 x ^^^ rotr32 18 x ^^^ x / 8

/-- SHA-256 `σ₁` (`rotr 17 ^ rotr 19 ^ shr 10`). -/
def smallSigma1 (x : Nat) : Nat := rotr32 17 x ^^^ rotr32 19 x ^^^ x / 1024

/-- The 64 SHA-256 round constants. -/
def sha256K : List Nat :=
  [1116352408, 1899447441, 3049323471, 3921009573,
   961987163, 1508970993, 2453635748, 2870763221,
   3624381080, 310598401, 607225278, 1426881987,
   1925078388, 2162078206, 2614888103, 3248222580,
   3835390401, 4022224774, 264347078, 604807628,
   770255983, 1249150122, 1555081692, 1996064986,
   2554220882, 2821834349, 2952996808, 3210313671,
   3336571891, 3584528711, 113926993, 338241895,
   666307205, 773529912, 1294757372, 1396182291,
   1695183700, 1986661051, 2177026350, 2456956037,
   2730485921, 2820302411, 3259730800, 3345764771,
   3516065817, 3600352804, 4094571909, 275423344,
   430227734, 506948616, 659060556, 883997877,
   958139571, 1322822218, 1537002063, 1747873779,
   1955562222, 2024104815, 2227730452, 2361852424,
   2428436474, 2756734187, 3204031479, 3329325298]

/-- The eight 32-bit working/digest words of SHA-256. -/
structure Hash8 where
  a : Nat
  b : Nat
  c : Nat
  d : Nat
  e : Nat
  f : Nat
  g : Nat
  h : Nat
deriving DecidableEq, Repr

/-- The SHA-256 initial hash value. -/
def sha256H0 : Hash8 :=
  ⟨1779033703, 3144134277, 1013904242, 2773480762,
   1359893119, 2600822924, 528734635, 1541459225⟩

/-- Big-endian byte serialization of `n` into `count` bytes. -/
def beBytes (count n : Nat) : List Nat :=
  (List.range count).map (fun i => n / 2 ^ (8 * (count - 1 - i)) % 256)

/-- SHA-256 message padding: append `0x80`, zero bytes up to 56 mod 64, then
the bit length as 8 big-endian bytes. -/
def sha256Pad (msg : List Nat) : List Nat :=
  msg ++ [128] ++ List.replicate ((119 - msg.length % 64) % 64) 0 ++
    beBytes 8 (8 * msg.length)

/-- Split a byte list into 64-byte blocks; the fuel argument (instantiated with
the list length, an upper bound on the block count) keeps the recursion
structural so that the definition reduces inside the kernel. -/
def chunks64Aux : Nat → List Nat → List (List Nat)
  | 0, _ => []
  | _, [] => []
  | fuel + 1, x :: l => (x :: l).take 64 :: chunks64Aux fuel ((x :: l).drop 64)

/-- Split a byte list into 64-byte blocks. -/
def chunks64 (l : List Nat) : List (List Nat) :=
  chunks64Aux l.length l

/-- A big-endian 32-bit word from four bytes. -/
def beWord (bs : List Nat) : Nat := bs.foldl (fun acc x => acc * 256 + x) 0

/-- The first 16 words of the message schedule: the block's bytes, big-endian. -/
def blockWords (block : List Nat) : List Nat :=
  (List.range 16).map (fun i => beWord ((block.drop (4 * i)).take 4))

/-- Extend the message schedule by `k` further words. -/
def extendSchedule : Nat → List Nat → List Nat
  | 0, ws => ws
  | k + 1, ws =>
    let n := ws.length
    extendSchedule k (ws ++
      [w32 (smallSigma1 (ws.getD (n - 2) 0) + ws.getD (n - 7) 0 +
        smallSigma0 (ws.getD (n - 15) 0) + ws.getD (n - 16) 0)])

/-- The full 64-word message schedule of one block. -/
def msgSchedule (block : List Nat) : List Nat :=
  extendSchedule 48 (blockWords block)

/-- One SHA-256 round, consuming one `(Kₜ, Wₜ)` pair. -/
def sha256Round (st : Hash8) (kw : Nat × Nat) : Hash8 :=
  let t1 := w32 (st.h + bigSigma1 st.e + shaCh st.e st.f st.g + kw.1 + kw.2)
  let t2 := w32 (bigSigma0 st.a + shaMaj st.a st.b st.c)
  ⟨w32 (t1 + t2), st.a, st.b, st.c, w32 (st.d + t1), st.e, st.f, st.g⟩

/-- Process one 64-byte block. -/
def compressBlock (st : Hash8) (block : List Nat) : Hash8 :=
  let fin := (sha256K.zip (msgSchedule block)).foldl sha256Round st
  ⟨w32 (st.a + fin.a), w32 (st.b + fin.b), w32 (st.c + fin.c), w32 (st.d + fin.d),
   w32 (st.e + fin.e), w32 (st.f + fin.f), w32 (st.g + fin.g), w32 (st.h + fin.h)⟩

/-- The SHA-256 digest words of a byte message. -/
def sha256Words (msg : List Nat) : Hash8 :=
  (chunks64 (sha256Pad msg)).foldl compressBlock sha256H0

/-- The four big-endian bytes of a 32-bit word, each reduced mod 256. -/
def wordBytes (wrd : Nat) : List Nat :=
  [wrd / 16777216 % 256, wrd / 65536 % 256, wrd / 256 % 256, wrd % 256]

/-- The 32-byte SHA-256 digest of a byte message. -/
def sha256 (msg : List Nat) : List Nat :=
  let d := sha256Words msg
  wordBytes d.a ++ wordBytes d.b ++ wordBytes d.c ++ wordBytes d.d ++
    wordBytes d.e ++ wordBytes d.f ++ wordBytes d.g ++ wordBytes d.h

/-- The sixteen lowercase hex digits, as indexed by `hash.ts`'s
`b.toString(16)`. -/
def hexDigit (n : Nat) : Char :=
  "0123456789abcdef".toList.getD n '0'

/-- The two lowercase hex characters of one byte
(`b.toString(16).padStart(2, "0")` in `hash.ts`). -/
def byteHex (b : Nat) : List Char :=
  [hexDigit (b / 16), hexDigit (b % 16)]

/-- Hex-encode a byte list, as `hash.ts` does with
`hashArray.map(b => b.toString(16).padStart(2, "0")).join("")`. -/
def bytesToHex (bs : List Nat) : String :=
  String.mk (bs.map byteHex).flatten

/-- `hashPr` (`lib/hash.ts`): the lowercase-hex SHA-256 digest of the
normalized pull-request text. -/
def hashPr (pr : GhPullRequest) : String :=
  bytesToHex (sha256 (utf8Encode (prepPullRequest pr)))

/-! ### The vector object (`routes.ts`, `IssueVector` / `PullRequestVector` /
`VectorObject`)

Embedding vectors are `number[]` in the source; their numeric contents are
never inspected by the code under verification, so the whole development is
parametric in the vector type `Vec`. -/

/-- `IssueVector` (`routes.ts`): `state` is the lowercase `"open" | "closed"`
string the handler writes. -/
structure IssueVector (Vec : Type) where
  id : String
  number : Nat
  state : String
  vector : Vec
deriving DecidableEq, Repr

/-- `PullRequestVector` (`routes.ts`): an `IssueVector` extended with the
content `hash`. -/
structure PullRequestVector (Vec : Type) where
  id : String
  number : Nat
  state : String
  vector : Vec
  hash : String
deriving DecidableEq, Repr

/-- `VectorObject` (`routes.ts`): the single artifact per repository. -/
structure VectorObject (Vec : Type) where
  repo : String
  syncedAt : Nat
  issues : List (String × IssueVector Vec)
  pullRequests : List (String × PullRequestVector Vec)
deriving DecidableEq, Repr

/-! ### The merge step of the sync handler (`routes.ts` lines 193–274)

`generateEmbeddings` is absent from `src/` (only a scratch script remains in
`lib/embedding.ts`), so the Embedding Client is a parameter `embed`; the spec's
§4.4 contract (one vector per text, same order) enters the theorems as a
hypothesis where needed.  `dV` models the JS `undefined` produced by an
out-of-range `embeddings[i]!` index; under the §4.4 contract it is never
used. -/

/-- `issueTexts.length > 0 ? await generateEmbeddings(texts) : []`: the guard
that skips the zero-length batch call. -/
def embedIfNonempty {Vec : Type} (embed : List String → List Vec)
    (texts : List String) : List Vec :=
  if texts.length > 0 then embed texts else []

/-- `allIssues.filter((i) => i.state === "OPEN")`. -/
def openIssuesOf (allIssues : List GhIssue) : List GhIssue :=
  allIssues.filter (fun i => i.state == .OPEN)

/-- `openIssues.map((i) => prepIssue(i))`. -/
def issueTextsOf (allIssues : List GhIssue) : List String :=
  (openIssuesOf allIssues).map prepIssue

/-- The `issueVectors` map: loop over `openIssues` by index, setting
`issue.id ↦ { id, number, state: "open", vector: issueEmbeddings[i]! }`. -/
def issueVectorsOf {Vec : Type} (embed : List String → List Vec) (dV : Vec)
    (allIssues : List GhIssue) : List (String × IssueVector Vec) :=
  let embs := embedIfNonempty embed (issueTextsOf allIssues)
  (openIssuesOf allIssues).enum.foldl
    (fun m p => objSet m p.2.id ⟨p.2.id, p.2.number, "open", embs.getD p.1 dV⟩)
    []

/-- `for (const issue of allIssues) if (issue.state !== "OPEN") delete
mergedIssues[issue.id]`. -/
def issuesDeleteClosed {Vec : Type} (m : List (String × IssueVector Vec))
    (allIssues : List GhIssue) : List (String × IssueVector Vec) :=
  allIssues.foldl (fun m i => if i.state != .OPEN then objDel m i.id else m) m

/-- The `prHashes` map: `pr.id ↦ hashPr(pr)` for every fetched pull request. -/
def prHashesOf (allPRs : List GhPullRequest) : List (String × String) :=
  allPRs.foldl (fun m pr => objSet m pr.id (hashPr pr)) []

/-- `prsToEmbed`: the fetched PRs (any state) whose hash is new or changed
relative to the existing map `m0` (`!existing || existing.hash !== hash`). -/
def prsToEmbedOf {Vec : Type} (m0 : List (String × PullRequestVector Vec))
    (allPRs : List GhPullRequest) : List GhPullRequest :=
  allPRs.filter (fun pr =>
    match objGet m0 pr.id with
    | none => true
    | some e => e.hash != hashPr pr)

/-- `prsToEmbed.map((pr) => prepPullRequest(pr))`. -/
def prTextsOf {Vec : Type} (m0 : List (String × PullRequestVector Vec))
    (allPRs : List GhPullRequest) : List String :=
  (prsToEmbedOf m0 allPRs).map prepPullRequest

/-- The `prVectors` map: loop over `prsToEmbed` by index.  `prHashes.get(pr.id)!`
is modelled with a default that is never taken (every fetched id is in the
map). -/
def prVectorsOf {Vec : Type} (embed : List String → List Vec) (dV : Vec)
    (m0 : List (String × PullRequestVector Vec)) (allPRs : List GhPullRequest) :
    List (String × PullRequestVector Vec) :=
  let toEmbed := prsToEmbedOf m0 allPRs
  let embs := embedIfNonempty embed (prTextsOf m0 allPRs)
  let hashes := prHashesOf allPRs
  toEmbed.enum.foldl
    (fun m p => objSet m p.2.id
      ⟨p.2.id, p.2.number, (if p.2.state == .OPEN then "open" else "closed"),
       embs.getD p.1 dV, (objGet hashes p.2.id).getD ""⟩)
    []

/-- The final `mergedIssues`: closed-issue deletions applied to the prior map,
then every `issueVectors` entry written over it. -/
def mergedIssuesOf {Vec : Type} (embed : List String → List Vec) (dV : Vec)
    (m0 : List (String × IssueVector Vec)) (allIssues : List GhIssue) :
    List (String × IssueVector Vec) :=
  (issueVectorsOf embed dV allIssues).foldl (fun m e => objSet m e.1 e.2)
    (issuesDeleteClosed m0 allIssues)

/-- The entry written for one fetched PR by the final merge loop: the fresh
`prVectors` entry when the hash was new or changed, otherwise (hash matched, so
a prior entry exists — the source asserts this with
`mergedPullRequests[pr.id]!`, modelled by the never-taken default `dP`) the
existing vector with `hash` and `state` refreshed.  Factored out of the fold so
that both branches expose the common `mergedPullRequests[pr.id] = …`
assignment. -/
def mergedPrEntry {Vec : Type} (prVecs : List (String × PullRequestVector Vec))
    (hashes : List (String × String)) (dP : PullRequestVector Vec)
    (m : List (String × PullRequestVector Vec)) (pr : GhPullRequest) :
    PullRequestVector Vec :=
  match objGet prVecs pr.id with
  | some v => v
  | none =>
    let ex := (objGet m pr.id).getD dP
    ⟨ex.id, ex.number, (if pr.state == .OPEN then "open" else "closed"),
     ex.vector, (objGet hashes pr.id).getD ""⟩

/-- The final `mergedPullRequests`: every fetched PR is written into the map
(`mergedPullRequests[pr.id] = …`); no fetched PR is ever deleted. -/
def mergedPRsOf {Vec : Type} (embed : List String → List Vec) (dV : Vec)
    (dP : PullRequestVector Vec) (m0 : List (String × PullRequestVector Vec))
    (allPRs : List GhPullRequest) : List (String × PullRequestVector Vec) :=
  let prVecs := prVectorsOf embed dV m0 allPRs
  let hashes := prHashesOf allPRs
  allPRs.foldl
    (fun m pr => objSet m pr.id (mergedPrEntry prVecs hashes dP m pr)) m0

/-- The embedding batches actually submitted in one sync run: the issue batch
and the PR batch, each skipped when empty (`routes.ts` lines 196 and 231). -/
def syncEmbedCalls {Vec : Type} (m0 : List (String × PullRequestVector Vec))
    (allIssues : List GhIssue) (allPRs : List GhPullRequest) :
    List (List String) :=
  (if (issueTextsOf allIssues).length > 0 then [issueTextsOf allIssues] else []) ++
    (if (prTextsOf m0 allPRs).length > 0 then [prTextsOf m0 allPRs] else [])

/-- The complete merge: build the new `VectorObject` from the prior one (or
empty maps when none exists) and the fetched lists; `now1` is the `Date.now()`
of `syncedAt`. -/
def syncMerge {Vec : Type} (embed : List String → List Vec) (dV : Vec)
    (dP : PullRequestVector Vec) (fullRepoName : String)
    (existing : Option (VectorObject Vec)) (allIssues : List GhIssue)
    (allPRs : List GhPullRequest) (now1 : Nat) : VectorObject Vec :=
  let m0I := (existing.map (·.issues)).getD []
  let m0P := (existing.map (·.pullRequests)).getD []
  { repo := fullRepoName
    syncedAt := now1
    issues := mergedIssuesOf embed dV m0I allIssues
    pullRequests := mergedPRsOf embed dV dP m0P allPRs }

/-! ### The repository metadata store (`packages/shared/src/schema/repositories.sql.ts`,
first variant — the one the sync handler's drizzle queries resolve against:
columns `id, owner, repo, lastSyncAt, createdAt, updatedAt`, unique on
`(owner, repo)`). -/

/-- One row of the `repositories` table. -/
structure RepositoryRecord where
  id : Nat
  owner : String
  repo : String
  lastSyncAt : Nat
  createdAt : Nat
  updatedAt : Nat
deriving DecidableEq, Repr

/-- The column names of the `repositories` table, from the drizzle
`sqliteTable` definition (and migration `0000_breezy_hercules.sql`). -/
def repositoriesColumns : List String :=
  ["id", "owner", "repo", "lastSyncAt", "createdAt", "updatedAt"]

/-- The keys of the `.set({...})` object of the sync handler's success-path
metadata update (`routes.ts` lines 284–290). -/
def syncSuccessUpdateColumns : List String :=
  ["lastSyncAt", "updatedAt"]

/-- `db.select().from(repositories).where(and(eq(owner), eq(repo))).limit(1)`
followed by `.at(0)`. -/
def selectByOwnerRepo (db : List RepositoryRecord) (o r : String) :
    Option RepositoryRecord :=
  db.find? (fun rec => rec.owner == o && rec.repo == r)

/-- The sync handler's success-path metadata update: set `lastSyncAt` and
`updatedAt` (both `Date.now()`, modelled as `now2`) on the matching row;
no other column is touched. -/
def dbUpdateSync (db : List RepositoryRecord) (o r : String) (now2 : Nat) :
    List RepositoryRecord :=
  db.map (fun rec =>
    if rec.owner == o && rec.repo == r then
      { rec with lastSyncAt := now2, updatedAt := now2 }
    else rec)

/-! ### Fetch-query semantics (`queries.ts`)

The two GraphQL documents are declarative; their filter clauses are modelled
as functions from the upstream item population to the fetched list.
`RemoteIssue`/`RemotePullRequest` extend the selected records with the
`updatedAt` moment the `since` filter tests against. -/

/-- An issue as it exists upstream, with its update moment. -/
structure RemoteIssue extends GhIssue where
  updatedAt : Nat
deriving DecidableEq, Repr

/-- A pull request as it exists upstream, with its update moment. -/
structure RemotePullRequest extends GhPullRequest where
  updatedAt : Nat
deriving DecidableEq, Repr

/-- `since` selection (`routes.ts` line 121):
`repository.lastSyncAt > 0 ? new Date(...).toISOString() : null`. -/
def sinceParam (lastSyncAt : Nat) : Option Nat :=
  if lastSyncAt > 0 then some lastSyncAt else none

/-- Modelled from the query text of `FETCH_ISSUES_QUERY` (`queries.ts` lines
38–66): `issues(filterBy: { states: OPEN, since: $since })` returns the open
issues, additionally filtered to those updated at or after `since` when it is
non-null.  The state filter applies in both modes. -/
def fetchIssuesResult (upstream : List RemoteIssue) (since : Option Nat) :
    List RemoteIssue :=
  upstream.filter (fun i =>
    i.state == .OPEN &&
      (match since with
       | none => true
       | some s => decide (s ≤ i.updatedAt)))

/-- Modelled from the query text of `FETCH_PULL_REQUESTS_QUERY` (`queries.ts`
lines 68–91): `pullRequests(states: OPEN)` returns the open pull requests; the
query takes no `since` variable at all, so the watermark plays no role. -/
def fetchPullRequestsResult (upstream : List RemotePullRequest) :
    List RemotePullRequest :=
  upstream.filter (fun p => p.state == .OPEN)

/-! ### The sync handler (`routes.ts` lines 98–309)

One HTTP `POST /:owner/:repo/sync`.  All failure points inside the `try` block
(GitHub fetch and embedding; they occur before any write) are modelled by a
single `Except`-valued input; the `catch` path returns the 500 response and
performs no write. -/

/-- The handler's HTTP response. -/
inductive SyncResponse where
  | notFound
  | ok (repo : String) (lastSyncAt issuesCount pullRequestsCount : Nat)
  | syncFailed (message : String)
deriving DecidableEq, Repr

/-- The observable outcome of one sync call: the metadata table, the stored
artifact, the embedding batches submitted, and the response. -/
structure SyncOutcome (Vec : Type) where
  db : List RepositoryRecord
  storage : Option (VectorObject Vec)
  embedCalls : List (List String)
  response : SyncResponse
deriving DecidableEq, Repr

/-- The sync handler.  `storage` is the prior artifact under
`{owner}/{repo}.json.gz` (decompressed), `fetched` the result of the paginated
GitHub fetch, `now1`/`now2` the two `Date.now()` calls (`syncedAt` at line 271
and the metadata update at line 287). -/
def syncHandler {Vec : Type} (embed : List String → List Vec) (dV : Vec)
    (dP : PullRequestVector Vec) (db : List RepositoryRecord)
    (storage : Option (VectorObject Vec)) (o r : String)
    (fetched : Except String (List GhIssue × List GhPullRequest))
    (now1 now2 : Nat) : SyncOutcome Vec :=
  match selectByOwnerRepo db o r with
  | none => ⟨db, storage, [], .notFound⟩
  | some _ =>
    match fetched with
    | .error msg => ⟨db, storage, [], .syncFailed msg⟩
    | .ok (allIssues, allPRs) =>
      let fullRepoName := o ++ "/" ++ r
      let m0P := ((storage.map (·.pullRequests)).getD [])
      let obj := syncMerge embed dV dP fullRepoName storage allIssues allPRs now1
      ⟨dbUpdateSync db o r now2, some obj,
       syncEmbedCalls m0P allIssues allPRs,
       .ok fullRepoName obj.syncedAt obj.issues.length obj.pullRequests.length⟩

/-! ### GitHub repository URL validation and parsing
(`packages/shared` `github-url.ts`)

The two regexes are
`^(?:https://|www\.)?github\.com/(?<owner>[a-zA-Z0-9._-]+)/(?<repo>[a-zA-Z0-9._-]+)/?$`
and `^(?<owner>[a-zA-Z0-9._-]+)/(?<repo>[a-zA-Z0-9._-]+)$`, modelled as
character-list matchers.  Greedy matching of `[…]+` is exact here because the
class excludes `/`, and the three prefix alternatives are mutually exclusive on
their first character, so no backtracking is lost. -/

/-- Membership in the regex character class `[a-zA-Z0-9._-]`. -/
def isNameChar (c : Char) : Bool :=
  ('a' ≤ c && c ≤ 'z') || ('A' ≤ c && c ≤ 'Z') || ('0' ≤ c && c ≤ '9') ||
    c == '.' || c == '_' || c == '-'

/-- Strip an exact literal off the front, or fail. -/
def stripLit : List Char → List Char → Option (List Char)
  | [], cs => some cs
  | _ :: _, [] => none
  | l :: ls, c :: cs => if c == l then stripLit ls cs else none

/-- Match `(?<owner>[a-zA-Z0-9._-]+)/(?<repo>[a-zA-Z0-9._-]+)` up to the end of
input, allowing one trailing `/` when `trailSlash` is set (the `/?$` of the full
URL regex), and return the two captures. -/
def matchOwnerRepo (trailSlash : Bool) (cs : List Char) :
    Option (List Char × List Char) :=
  let owner := cs.takeWhile isNameChar
  let rest := cs.dropWhile isNameChar
  match rest with
  | '/' :: rest2 =>
    let repo := rest2.takeWhile isNameChar
    let rest3 := rest2.dropWhile isNameChar
    if owner.isEmpty || repo.isEmpty then none
    else if rest3 = [] then some (owner, repo)
    else if trailSlash && rest3 = ['/'] then some (owner, repo)
    else none
  | _ => none

/-- The full-URL regex `githubUrlRegex`: optional `https://` or `www.` (the
alternatives differ in their first character, so trying them in order is
exact), then literal `github.com/`, then owner/repo with an optional trailing
slash. -/
def matchGithubUrl (cs : List Char) : Option (List Char × List Char) :=
  let host := "github.com/".toList
  match stripLit "https://".toList cs with
  | some rest => (stripLit host rest).bind (matchOwnerRepo true)
  | none =>
    match stripLit "www.".toList cs with
    | some rest => (stripLit host rest).bind (matchOwnerRepo true)
    | none => (stripLit host cs).bind (matchOwnerRepo true)

/-- The shorthand regex `githubShorthandRegex`: `owner/repo`, no trailing
slash. -/
def matchGithubShorthand (cs : List Char) : Option (List Char × List Char) :=
  matchOwnerRepo false cs

/-- `isValidGitHubRepoUrl` (`github-url.ts`): either regex tests true against
the raw (untrimmed) input. -/
def isValidGitHubRepoUrl (u : String) : Bool :=
  (matchGithubUrl u.toList).isSome || (matchGithubShorthand u.toList).isSome

/-- The code points removed by JS `String.prototype.trim` (WhiteSpace and
LineTerminator). -/
def jsWsCodes : List Nat :=
  [9, 10, 11, 12, 13, 32, 160, 5760, 8192, 8193, 8194, 8195, 8196, 8197, 8198,
   8199, 8200, 8201, 8202, 8232, 8233, 8239, 8287, 12288, 65279]

/-- Is this character JS whitespace? -/
def jsWs (c : Char) : Bool := jsWsCodes.contains c.toNat

/-- JS `String.prototype.trim` on a character list. -/
def jsTrim (cs : List Char) : List Char :=
  ((cs.dropWhile jsWs).reverse.dropWhile jsWs).reverse

/-- The result type of `parseGitHubRepoUrl` (`github-url.ts`): either the
`{ fullName, owner, repo }` object or the `{ error }` object. -/
inductive ParseResult where
  | ok (fullName owner repo : String)
  | error (message : String)
deriving DecidableEq, Repr

/-- `parseGitHubRepoUrl` (`github-url.ts`): trim, try the full-URL regex, then
the shorthand regex, else the error object.  On success the captures are
non-empty by construction (the source's `if (owner && repo)` guard), and
`fullName` is built as `owner + "/" + repo`. -/
def parseGitHubRepoUrl (u : String) : ParseResult :=
  let t := jsTrim u.toList
  match matchGithubUrl t with
  | some (o, r) => .ok (String.mk o ++ "/" ++ String.mk r) (String.mk o) (String.mk r)
  | none =>
    match matchGithubShorthand t with
    | some (o, r) =>
      .ok (String.mk o ++ "/" ++ String.mk r) (String.mk o) (String.mk r)
    | none =>
      .error "Invalid repository URL. Use format: https://github.com/owner/repo or owner/repo"

/-! ### The submit handler (`routes.ts` lines 57–97, `POST /`) -/

/-- The submit handler's HTTP response. -/
inductive SubmitResponse where
  | badRequest (error : String)
  | okExisting (rec : RepositoryRecord)
  | created (rec : RepositoryRecord)
deriving DecidableEq, Repr

/-- The observable outcome of one submit call. -/
structure SubmitOutcome where
  db : List RepositoryRecord
  response : SubmitResponse
deriving DecidableEq, Repr

/-- The submit handler: parse the URL, return the existing row unchanged if one
matches `(owner, repo)`, otherwise insert a fresh row with `lastSyncAt = 0`.
`newId` is the autoincrement id the insert would receive. -/
def submitHandler (db : List RepositoryRecord) (repoUrl : String)
    (now newId : Nat) : SubmitOutcome :=
  match parseGitHubRepoUrl repoUrl with
  | .error e => ⟨db, .badRequest e⟩
  | .ok _ owner repoName =>
    match selectByOwnerRepo db owner repoName with
    | some existingRepo => ⟨db, .okExisting existingRepo⟩
    | none =>
      let newRec : RepositoryRecord := ⟨newId, owner, repoName, 0, now, now⟩
      ⟨db ++ [newRec], .created newRec⟩

/-! ### UTF-8 decoding and the compression codec (`lib/compression.ts`)

`compressGzip` is `TextEncoder` piped through the platform
`CompressionStream("gzip")`; `decompressGzip` is the `DecompressionStream`
piped into `TextDecoder`.  The gzip core is a platform primitive, not
repository code, so it enters the model as an arbitrary function pair subject
to its documented inverse contract; the repository code contributes exactly
the UTF-8 encode/decode plumbing, which is modelled concretely. -/

/-- Modelled from the spec: the Unicode replacement character U+FFFD the
platform `TextDecoder` substitutes for malformed input. -/
def replChar : Char := Char.ofNat 65533

/-- The incremental UTF-8 decoder state: how many continuation bytes are still
expected, the partial scalar value, and the output so far (reversed). -/
structure Utf8State where
  needed : Nat
  acc : Nat
  out : List Char
deriving DecidableEq, Repr

/-- Classify a byte arriving in the ground state: ASCII, stray continuation,
or a 2-, 3- or 4-byte lead. -/
def utf8Lead (st : Utf8State) (b : Nat) : Utf8State :=
  if b < 128 then { st with needed := 0, out := Char.ofNat b :: st.out }
  else if b < 192 then { st with needed := 0, out := replChar :: st.out }
  else if b < 224 then { st with needed := 1, acc := b - 192 }
  else if b < 240 then { st with needed := 2, acc := b - 224 }
  else if b < 248 then { st with needed := 3, acc := b - 240 }
  else { st with needed := 0, out := replChar :: st.out }

/-- Consume one byte. -/
def utf8Step (st : Utf8State) (b : Nat) : Utf8State :=
  if st.needed = 0 then utf8Lead st b
  else if 128 ≤ b && b < 192 then
    let acc := st.acc * 64 + (b - 128)
    if st.needed = 1 then { needed := 0, acc := 0, out := Char.ofNat acc :: st.out }
    else { st with needed := st.needed - 1, acc := acc }
  else utf8Lead { st with needed := 0, out := replChar :: st.out } b

/-- Modelled from the spec: the platform `TextDecoder.decode`, as a byte-wise
state machine (malformed sequences become U+FFFD; on well-formed input this is
standard UTF-8 decoding). -/
def utf8Decode (bs : List Nat) : String :=
  let fin := bs.foldl utf8Step ⟨0, 0, []⟩
  String.mk ((if fin.needed = 0 then fin.out else replChar :: fin.out).reverse)

/-- `compressGzip` (`lib/compression.ts`): UTF-8 bytes of the text, passed
through the platform gzip compressor (a parameter of the model). -/
def compressGzip (gzip : List Nat → List Nat) (s : String) : List Nat :=
  gzip (utf8Encode s)

/-- `decompressGzip` (`lib/compression.ts`): the platform gzip decompressor
(a parameter of the model) followed by `TextDecoder`. -/
def decompressGzip (gunzip : List Nat → List Nat) (b : List Nat) : String :=
  utf8Decode (gunzip b)

/-! ### Concrete inputs used by witnesses and counterexamples -/

/-- A concrete embedder over `Vec := Nat` for witnesses: each text maps to its
length (the §4.4 length contract holds definitionally). -/
def embN : List String → List Nat := fun ts => ts.map String.length

/-- A concrete default `PullRequestVector` (the JS `undefined`; never reached). -/
def dP0 : PullRequestVector Nat := ⟨"", 0, "", 0, ""⟩

/-- A concrete empty prior pull-request map over `Vec := Nat`. -/
def emptyPrMap : List (String × PullRequestVector Nat) := []

/-- A concrete repository row. -/
def rec0 : RepositoryRecord := ⟨1, "acme", "widgets", 42, 5, 5⟩

/-- A concrete open fetched issue. -/
def issueOpen1 : GhIssue := ⟨"I1", 1, "Fix", "Body", .OPEN⟩

/-- A concrete closed fetched issue. -/
def issueClosed2 : GhIssue := ⟨"I2", 2, "Old", "Done", .CLOSED⟩

/-- A concrete closed fetched pull request. -/
def prClosed1 : GhPullRequest := ⟨"P1", 10, "t", "b", .CLOSED, []⟩

/-- A concrete open fetched pull request. -/
def prOpen2 : GhPullRequest := ⟨"P2", 11, "u", "c", .OPEN, [⟨"a.ts"⟩]⟩

/-- A concrete prior vector object holding one issue entry and one PR entry. -/
def priorC1 : VectorObject Nat :=
  ⟨"acme/widgets", 50, [("I2", ⟨"I2", 2, "open", 4⟩)],
   [("P1", ⟨"P1", 10, "open", 7, "stale"⟩)]⟩

/-! ### C2 — fetch modes -/

/-- A concrete closed upstream issue updated after the watermark. -/
def remoteIssueClosed : RemoteIssue := ⟨⟨"I7", 7, "t", "b", .CLOSED⟩, 10⟩

/-- A concrete open upstream issue updated after the watermark. -/
def remoteIssueOpen : RemoteIssue := ⟨⟨"I8", 8, "t", "b", .OPEN⟩, 10⟩

/-- A concrete merged upstream pull request updated after the watermark. -/
def remotePrMerged : RemotePullRequest := ⟨⟨"P7", 7, "t", "b", .MERGED, []⟩, 10⟩

/-! ## Theorems -/

theorem find?_filter_stripped {α : Type} (m : List (String × α)) (k : String) :
    (m.filter (fun e => e.fst != k)).find? (fun e => e.fst == k) = none := by
  rw [List.find?_eq_none]
  intro x hx
  have hx' := List.of_mem_filter hx
  simp only [bne_iff_ne, ne_eq] at hx'
  simp [hx']

theorem find?_filter_other {α : Type} (m : List (String × α)) (k k' : String)
    (hne : k' ≠ k) :
    (m.filter (fun e => e.fst != k)).find? (fun e => e.fst == k') =
      m.find? (fun e => e.fst == k') := by
  induction m with
  | nil => rfl
  | cons e m ih =>
    by_cases hek : e.fst = k
    · have h1 : (e.fst != k) = false := by simp [hek]
      have h2 : (e.fst == k') = false := by simp [hek, Ne.symm hne]
      simp [List.filter_cons, h1, List.find?_cons, h2, ih]
    · have h1 : (e.fst != k) = true := by simp [hek]
      by_cases hek2 : e.fst = k'
      · have h2 : (e.fst == k') = true := by simp [hek2]
        simp [List.filter_cons, h1, List.find?_cons, h2]
      · have h2 : (e.fst == k') = false := by simp [hek2]
        simp [List.filter_cons, h1, List.find?_cons, h2, ih]

theorem objGet_objSet_self {α : Type} (m : List (String × α)) (k : String) (v : α) :
    objGet (objSet m k v) k = some v := by
  simp [objGet, objSet, List.find?_append, find?_filter_stripped, List.find?]

theorem objGet_objSet_ne {α : Type} (m : List (String × α)) (k k' : String) (v : α)
    (hne : k' ≠ k) : objGet (objSet m k v) k' = objGet m k' := by
  have hkk : (k == k') = false := by simp [Ne.symm hne]
  simp only [objGet, objSet, List.find?_append, find?_filter_other m k k' hne]
  cases hfind : m.find? (fun e => e.fst == k') with
  | none => simp [List.find?, hkk]
  | some e => rfl

theorem objGet_objDel_self {α : Type} (m : List (String × α)) (k : String) :
    objGet (objDel m k) k = none := by
  simp [objGet, objDel, find?_filter_stripped]

theorem objGet_objDel_ne {α : Type} (m : List (String × α)) (k k' : String)
    (hne : k' ≠ k) : objGet (objDel m k) k' = objGet m k' := by
  simp only [objGet, objDel, find?_filter_other m k k' hne]

set_option maxRecDepth 10000 in
example : bytesToHex (sha256 (utf8Encode "abc")) =
    "ba7816bf8f01cfea414140de5dae2223b00361a396177a9cb410ff61f20015ad" := by
  decide

/-! ### UTF-8 round-trip -/

theorem char_toNat_lt (c : Char) : c.toNat < 1114112 := by
  have hv := c.valid
  rcases hv with h | ⟨_, h2⟩
  · exact Nat.lt_trans h (by norm_num)
  · exact h2

/-- Decoding consumes the encoding of one scalar value and emits exactly that
character. -/
theorem utf8Step_encodeChar (c : Char) (o : List Char) (rest : List Nat) :
    (utf8EncodeChar c ++ rest).foldl utf8Step ⟨0, 0, o⟩ =
      rest.foldl utf8Step ⟨0, 0, c :: o⟩ := by
  have hofNat : Char.ofNat c.toNat = c := Char.ofNat_toNat c
  set n := c.toNat with hn
  by_cases h1 : n < 128
  · have he : utf8EncodeChar c = [n] := by
      rw [utf8EncodeChar]; simp [← hn, h1]
    rw [he]
    simp only [List.cons_append, List.nil_append, List.foldl_cons]
    have hstep : utf8Step ⟨0, 0, o⟩ n = ⟨0, 0, c :: o⟩ := by
      simp [utf8Step, utf8Lead, h1, hofNat]
    rw [hstep]
  · by_cases h2 : n < 2048
    · have he : utf8EncodeChar c = [192 + n / 64, 128 + n % 64] := by
        rw [utf8EncodeChar]; simp [← hn, h1, h2]
      rw [he]
      simp only [List.cons_append, List.nil_append, List.foldl_cons]
      have hstep1 : utf8Step ⟨0, 0, o⟩ (192 + n / 64) = ⟨1, n / 64, o⟩ := by
        have hc1 : ¬ (192 + n / 64 < 128) := by omega
        have hc2 : ¬ (192 + n / 64 < 192) := by omega
        have hc3 : 192 + n / 64 < 224 := by omega
        simp [utf8Step, utf8Lead, hc1, hc2, hc3]
      have hstep2 : utf8Step ⟨1, n / 64, o⟩ (128 + n % 64) = ⟨0, 0, c :: o⟩ := by
        have hc1 : 128 ≤ 128 + n % 64 := by omega
        have hc2 : 128 + n % 64 < 192 := by omega
        have hacc : n / 64 * 64 + n % 64 = n := by omega
        simp [utf8Step, hc1, hc2, hacc, hofNat]
      rw [hstep1, hstep2]
    · by_cases h3 : n < 65536
      · have he : utf8EncodeChar c =
            [224 + n / 4096, 128 + n / 64 % 64, 128 + n % 64] := by
          rw [utf8EncodeChar]; simp [← hn, h1, h2, h3]
        rw [he]
        simp only [List.cons_append, List.nil_append, List.foldl_cons]
        have hstep1 : utf8Step ⟨0, 0, o⟩ (224 + n / 4096) = ⟨2, n / 4096, o⟩ := by
          have hc1 : ¬ (224 + n / 4096 < 128) := by omega
          have hc2 : ¬ (224 + n / 4096 < 192) := by omega
          have hc3 : ¬ (224 + n / 4096 < 224) := by omega
          have hc4 : 224 + n / 4096 < 240 := by omega
          simp [utf8Step, utf8Lead, hc1, hc2, hc3, hc4]
        have hstep2 : utf8Step ⟨2, n / 4096, o⟩ (128 + n / 64 % 64) =
            ⟨1, n / 4096 * 64 + n / 64 % 64, o⟩ := by
          have hc1 : 128 ≤ 128 + n / 64 % 64 := by omega
          have hc2 : 128 + n / 64 % 64 < 192 := by omega
          simp [utf8Step, hc1, hc2]
        have hstep3 : utf8Step ⟨1, n / 4096 * 64 + n / 64 % 64, o⟩ (128 + n % 64) =
            ⟨0, 0, c :: o⟩ := by
          have hc1 : 128 ≤ 128 + n % 64 := by omega
          have hc2 : 128 + n % 64 < 192 := by omega
          have hacc : (n / 4096 * 64 + n / 64 % 64) * 64 + n % 64 = n := by
            omega
          simp [utf8Step, hc1, hc2, hacc, hofNat]
        rw [hstep1, hstep2, hstep3]
      · have h4 : n < 1114112 := hn ▸ char_toNat_lt c
        have he : utf8EncodeChar c =
            [240 + n / 262144, 128 + n / 4096 % 64, 128 + n / 64 % 64, 128 + n % 64] := by
          rw [utf8EncodeChar]; simp [← hn, h1, h2, h3]
        rw [he]
        simp only [List.cons_append, List.nil_append, List.foldl_cons]
        have hstep1 : utf8Step ⟨0, 0, o⟩ (240 + n / 262144) = ⟨3, n / 262144, o⟩ := by
          have hc1 : ¬ (240 + n / 262144 < 128) := by omega
          have hc2 : ¬ (240 + n / 262144 < 192) := by omega
          have hc3 : ¬ (240 + n / 262144 < 224) := by omega
          have hc4 : ¬ (240 + n / 262144 < 240) := by omega
          have hc5 : 240 + n / 262144 < 248 := by omega
          simp [utf8Step, utf8Lead, hc1, hc2, hc3, hc4, hc5]
        have hstep2 : utf8Step ⟨3, n / 262144, o⟩ (128 + n / 4096 % 64) =
            ⟨2, n / 262144 * 64 + n / 4096 % 64, o⟩ := by
          have hc1 : 128 ≤ 128 + n / 4096 % 64 := by omega
          have hc2 : 128 + n / 4096 % 64 < 192 := by omega
          simp [utf8Step, hc1, hc2]
        have hstep3 : utf8Step ⟨2, n / 262144 * 64 + n / 4096 % 64, o⟩
            (128 + n / 64 % 64) =
            ⟨1, (n / 262144 * 64 + n / 4096 % 64) * 64 + n / 64 % 64, o⟩ := by
          have hc1 : 128 ≤ 128 + n / 64 % 64 := by omega
          have hc2 : 128 + n / 64 % 64 < 192 := by omega
          simp [utf8Step, hc1, hc2]
        have hstep4 : utf8Step
            ⟨1, (n / 262144 * 64 + n / 4096 % 64) * 64 + n / 64 % 64, o⟩
            (128 + n % 64) = ⟨0, 0, c :: o⟩ := by
          have hc1 : 128 ≤ 128 + n % 64 := by omega
          have hc2 : 128 + n % 64 < 192 := by omega
          have hacc : ((n / 262144 * 64 + n / 4096 % 64) * 64 + n / 64 % 64) * 64 + n % 64 = n := by omega
          simp [utf8Step, hc1, hc2, hacc, hofNat]
        rw [hstep1, hstep2, hstep3, hstep4]

/-- Decoding the encoding of a character list lands in the ground state with
the characters (reversed) as output. -/
theorem utf8Decode_fold_encode (cs : List Char) (o : List Char) :
    ((cs.map utf8EncodeChar).flatten).foldl utf8Step ⟨0, 0, o⟩ =
      ⟨0, 0, cs.reverse ++ o⟩ := by
  induction cs generalizing o with
  | nil => rfl
  | cons c cs ih =>
    rw [List.map_cons, List.flatten_cons, utf8Step_encodeChar c o, ih (c :: o)]
    simp

/-- The UTF-8 round trip: decoding the encoding of any string gives it back. -/
theorem utf8Decode_utf8Encode (s : String) : utf8Decode (utf8Encode s) = s := by
  rw [utf8Decode, utf8Encode, utf8Decode_fold_encode s.toList []]
  cases s with
  | mk data => simp [String.toList]

/-- C8: for every UTF-8 string `s`, including the empty string and strings with
multi-byte code points, `decompressGzip (compressGzip s) = s`.  The gzip core is
the platform `CompressionStream`/`DecompressionStream` pair, a parameter of the
model constrained by its byte-exact inverse contract; the repository's code
contributes the UTF-8 encode/decode plumbing, which is proved to round-trip. -/
theorem c8_compression_roundtrip (gzip gunzip : List Nat → List Nat)
    (hinv : ∀ bs, gunzip (gzip bs) = bs) (s : String) :
    decompressGzip gunzip (compressGzip gzip s) = s := by
  rw [compressGzip, decompressGzip, hinv]
  exact utf8Decode_utf8Encode s

/-- Witness for C8: the identity codec satisfies the inverse contract, and the
round trip holds at a concrete string containing a 1-, 2-, 3- and 4-byte code
point, and at the empty string. -/
theorem c8_compression_roundtrip_witness :
    (∀ bs : List Nat, id (id bs) = bs) ∧
      decompressGzip id (compressGzip id ("aé€😀")) = ("aé€😀") ∧
      decompressGzip id (compressGzip id ("")) = ("") :=
  ⟨fun _ => rfl,
   c8_compression_roundtrip id id (fun _ => rfl) ("aé€😀"),
   c8_compression_roundtrip id id (fun _ => rfl) ("")⟩

/-! ### C9: the client-side validator accepts only what the parser parses -/

theorem stripLit_eq_some (l : List Char) :
    ∀ cs rest, stripLit l cs = some rest → cs = l ++ rest := by
  induction l with
  | nil =>
    intro cs rest h
    simpa [stripLit] using h
  | cons x l ih =>
    intro cs rest h
    cases cs with
    | nil => simp [stripLit] at h
    | cons c cs =>
      rw [stripLit] at h
      by_cases hc : c = x
      · simp only [hc, beq_self_eq_true, if_true] at h
        simpa [hc] using congrArg (x :: ·) (ih cs rest h)
      · rw [if_neg (by simp [hc])] at h
        exact absurd h (by simp)

theorem isNameChar_not_ws (c : Char) (h : isNameChar c = true) : jsWs c = false := by
  by_contra hcon
  have hws : jsWs c = true := by
    cases hb : jsWs c
    · exact absurd hb hcon
    · rfl
  have hmem : c.toNat ∈ jsWsCodes := by
    rw [jsWs] at hws
    simpa using hws
  have hall : ∀ m ∈ jsWsCodes, isNameChar (Char.ofNat m) = false := by decide
  have hfalse := hall _ hmem
  rw [Char.ofNat_toNat] at hfalse
  rw [h] at hfalse
  exact Bool.noConfusion hfalse

theorem jsTrim_eq_self (cs : List Char) (h : ∀ c ∈ cs, jsWs c = false) :
    jsTrim cs = cs := by
  have hdrop : ∀ (l : List Char), (∀ c ∈ l, jsWs c = false) → l.dropWhile jsWs = l := by
    intro l hl
    cases l with
    | nil => rfl
    | cons a l =>
      rw [List.dropWhile_cons, hl a (by simp)]
      simp
  rw [jsTrim, hdrop cs h, hdrop cs.reverse (fun c hc => h c (List.mem_reverse.mp hc)),
    List.reverse_reverse]

/-- The shape of a successful owner/repo match: the input splits into the two
all-name-character captures, the separating slash, and an optional trailing
slash. -/
theorem matchOwnerRepo_shape (t : Bool) (cs o r : List Char)
    (h : matchOwnerRepo t cs = some (o, r)) :
    (∀ c ∈ o, isNameChar c = true) ∧ (∀ c ∈ r, isNameChar c = true) ∧
      (cs = o ++ '/' :: r ∨ cs = o ++ '/' :: r ++ ['/']) := by
  rw [matchOwnerRepo] at h
  split at h
  case h_2 => exact absurd h (by simp)
  case h_1 rest2 heq =>
    have hcs : cs = cs.takeWhile isNameChar ++ '/' :: rest2 := by
      conv_lhs => rw [← List.takeWhile_append_dropWhile isNameChar cs]
      rw [heq]
    dsimp only [] at h
    split at h
    case isTrue => exact absurd h (by simp)
    case isFalse hemp =>
      split at h
      case isTrue h3 =>
        rw [Option.some.injEq, Prod.mk.injEq] at h
        obtain ⟨ho, hr⟩ := h
        have hrest2 : rest2 = r := by
          conv_lhs => rw [← List.takeWhile_append_dropWhile isNameChar rest2]
          rw [hr, h3, List.append_nil]
        refine ⟨fun c hc => List.mem_takeWhile_imp (ho ▸ hc),
                fun c hc => List.mem_takeWhile_imp (hr ▸ hc), Or.inl ?_⟩
        conv_lhs => rw [hcs]
        rw [ho, hrest2]
      case isFalse h3 =>
        split at h
        case isFalse => exact absurd h (by simp)
        case isTrue h4 =>
          rw [Option.some.injEq, Prod.mk.injEq] at h
          obtain ⟨ho, hr⟩ := h
          have h4' : rest2.dropWhile isNameChar = ['/'] := by
            rcases Bool.and_eq_true .. |>.mp h4 with ⟨_, hd⟩
            exact of_decide_eq_true hd
          have hrest2 : rest2 = r ++ ['/'] := by
            conv_lhs => rw [← List.takeWhile_append_dropWhile isNameChar rest2]
            rw [hr, h4']
          refine ⟨fun c hc => List.mem_takeWhile_imp (ho ▸ hc),
                  fun c hc => List.mem_takeWhile_imp (hr ▸ hc), Or.inr ?_⟩
          conv_lhs => rw [hcs]
          rw [ho, hrest2]
          simp

theorem matchOwnerRepo_not_ws (t : Bool) (cs o r : List Char)
    (h : matchOwnerRepo t cs = some (o, r)) : ∀ c ∈ cs, jsWs c = false := by
  obtain ⟨ho, hr, hshape⟩ := matchOwnerRepo_shape t cs o r h
  rcases hshape with hcs | hcs
  · subst hcs
    intro c hc
    rcases List.mem_append.mp hc with h1 | h2
    · exact isNameChar_not_ws c (ho c h1)
    · rcases List.mem_cons.mp h2 with h3 | h4
      · subst h3
        decide
      · exact isNameChar_not_ws c (hr c h4)
  · subst hcs
    intro c hc
    rcases List.mem_append.mp hc with h1 | h2
    · rcases List.mem_append.mp h1 with h3 | h4
      · exact isNameChar_not_ws c (ho c h3)
      · rcases List.mem_cons.mp h4 with h5 | h6
        · subst h5
          decide
        · exact isNameChar_not_ws c (hr c h6)
    · have h7 := List.mem_singleton.mp h2
      subst h7
      decide

theorem matchGithubUrl_not_ws (cs o r : List Char)
    (h : matchGithubUrl cs = some (o, r)) : ∀ c ∈ cs, jsWs c = false := by
  have hlit1 : ∀ c ∈ ("https://".toList), jsWs c = false := by decide
  have hlit2 : ∀ c ∈ ("www.".toList), jsWs c = false := by decide
  have hhost : ∀ c ∈ ("github.com/".toList), jsWs c = false := by decide
  rw [matchGithubUrl] at h
  split at h
  case h_1 rest heq =>
    obtain ⟨rest2, hstrip2, hmatch⟩ := Option.bind_eq_some.mp h
    have hcs := stripLit_eq_some _ _ _ heq
    have hrest := stripLit_eq_some _ _ _ hstrip2
    subst hcs
    subst hrest
    intro c hc
    rcases List.mem_append.mp hc with h1 | h2
    · exact hlit1 c h1
    · rcases List.mem_append.mp h2 with h3 | h4
      · exact hhost c h3
      · exact matchOwnerRepo_not_ws true _ o r hmatch c h4
  case h_2 hnone =>
    split at h
    case h_1 rest heq =>
      obtain ⟨rest2, hstrip2, hmatch⟩ := Option.bind_eq_some.mp h
      have hcs := stripLit_eq_some _ _ _ heq
      have hrest := stripLit_eq_some _ _ _ hstrip2
      subst hcs
      subst hrest
      intro c hc
      rcases List.mem_append.mp hc with h1 | h2
      · exact hlit2 c h1
      · rcases List.mem_append.mp h2 with h3 | h4
        · exact hhost c h3
        · exact matchOwnerRepo_not_ws true _ o r hmatch c h4
    case h_2 =>
      obtain ⟨rest2, hstrip2, hmatch⟩ := Option.bind_eq_some.mp h
      have hcs := stripLit_eq_some _ _ _ hstrip2
      subst hcs
      intro c hc
      rcases List.mem_append.mp hc with h1 | h2
      · exact hhost c h1
      · exact matchOwnerRepo_not_ws true _ o r hmatch c h2

/-- C9: every string accepted by the client-side validator
`isValidGitHubRepoUrl` is parsed successfully by the server-side
`parseGitHubRepoUrl`, yielding `{ fullName, owner, repo }` with
`fullName = owner ++ "/" ++ repo` — never the error variant. -/
theorem c9_valid_implies_parse_ok (u : String)
    (h : isValidGitHubRepoUrl u = true) :
    ∃ o r : String, parseGitHubRepoUrl u = .ok (o ++ "/" ++ r) o r := by
  rw [isValidGitHubRepoUrl, Bool.or_eq_true] at h
  rw [parseGitHubRepoUrl]
  rcases h with h | h
  · obtain ⟨⟨o, r⟩, hm⟩ := Option.isSome_iff_exists.mp h
    have htrim : jsTrim u.toList = u.toList :=
      jsTrim_eq_self _ (matchGithubUrl_not_ws _ o r hm)
    rw [htrim, hm]
    exact ⟨String.mk o, String.mk r, rfl⟩
  · obtain ⟨⟨o, r⟩, hm⟩ := Option.isSome_iff_exists.mp h
    rw [matchGithubShorthand] at hm
    have htrim : jsTrim u.toList = u.toList :=
      jsTrim_eq_self _ (matchOwnerRepo_not_ws false _ o r hm)
    rw [htrim]
    cases hurl : matchGithubUrl u.toList with
    | some p =>
      exact ⟨String.mk p.1, String.mk p.2, rfl⟩
    | none =>
      rw [matchGithubShorthand, hm]
      exact ⟨String.mk o, String.mk r, rfl⟩

/-- Witness for C9: the validator accepts `"acme/widgets"` and the parser
splits it as the theorem states. -/
theorem c9_valid_implies_parse_ok_witness :
    isValidGitHubRepoUrl ("acme/widgets") = true ∧
      ∃ o r : String, parseGitHubRepoUrl ("acme/widgets") = .ok (o ++ "/" ++ r) o r :=
  ⟨by decide, c9_valid_implies_parse_ok ("acme/widgets") (by decide)⟩

/-! ### Generic facts about maps built by folds of `objSet`/`objDel` -/

theorem objGet_foldl_objSet_of_not_mem {α β : Type} (f : β → String) (g : β → α)
    (l : List β) (m0 : List (String × α)) (k : String)
    (hk : ∀ x ∈ l, f x ≠ k) :
    objGet (l.foldl (fun m x => objSet m (f x) (g x)) m0) k = objGet m0 k := by
  induction l generalizing m0 with
  | nil => rfl
  | cons y l ih =>
    rw [List.foldl_cons, ih (objSet m0 (f y) (g y)) (fun x hx => hk x (by simp [hx])),
      objGet_objSet_ne _ _ _ _ (fun hkk => hk y (by simp) hkk.symm)]

theorem objGet_foldl_objSet_of_mem {α β : Type} (f : β → String) (g : β → α)
    (l : List β) (m0 : List (String × α)) (x : β) (hx : x ∈ l)
    (hnd : (l.map f).Nodup) :
    objGet (l.foldl (fun m x => objSet m (f x) (g x)) m0) (f x) = some (g x) := by
  induction l generalizing m0 with
  | nil => exact absurd hx (by simp)
  | cons y l ih =>
    rw [List.map_cons, List.nodup_cons] at hnd
    rcases List.mem_cons.mp hx with hxy | hxl
    · subst hxy
      rw [List.foldl_cons,
        objGet_foldl_objSet_of_not_mem f g l _ (f x)
          (fun z hz hfz => hnd.1 (hfz ▸ List.mem_map_of_mem f hz)),
        objGet_objSet_self]
    · exact List.foldl_cons .. ▸ ih (objSet m0 (f y) (g y)) hxl hnd.2

theorem objGet_foldl_objSet_some {α β : Type} (f : β → String) (g : β → α)
    (l : List β) (m0 : List (String × α)) (k : String) (v : α)
    (h : objGet (l.foldl (fun m x => objSet m (f x) (g x)) m0) k = some v) :
    (∃ x ∈ l, f x = k ∧ v = g x) ∨ objGet m0 k = some v := by
  induction l generalizing m0 with
  | nil => exact Or.inr h
  | cons y l ih =>
    rw [List.foldl_cons] at h
    rcases ih _ h with h1 | h2
    · obtain ⟨x, hx, hfx, hv⟩ := h1
      exact Or.inl ⟨x, by simp [hx], hfx, hv⟩
    · by_cases hky : f y = k
      · rw [← hky, objGet_objSet_self] at h2
        exact Or.inl ⟨y, by simp, hky, (Option.some.injEq .. ▸ h2).symm⟩
      · rw [objGet_objSet_ne _ _ _ _ (fun hkk => hky hkk.symm)] at h2
        exact Or.inr h2

theorem objGet_foldl_setdep_of_not_mem {α β : Type} (f : β → String)
    (g : List (String × α) → β → α) (l : List β) (m0 : List (String × α))
    (k : String) (hk : ∀ x ∈ l, f x ≠ k) :
    objGet (l.foldl (fun m x => objSet m (f x) (g m x)) m0) k = objGet m0 k := by
  induction l generalizing m0 with
  | nil => rfl
  | cons y l ih =>
    rw [List.foldl_cons, ih _ (fun x hx => hk x (by simp [hx])),
      objGet_objSet_ne _ _ _ _ (fun hkk => hk y (by simp) hkk.symm)]

theorem objGet_foldl_setdep_of_mem {α β : Type} (f : β → String)
    (g : List (String × α) → β → α) (l : List β) (m0 : List (String × α))
    (x : β) (hx : x ∈ l) (hnd : (l.map f).Nodup) :
    ∃ m', objGet (l.foldl (fun m x => objSet m (f x) (g m x)) m0) (f x) =
      some (g m' x) := by
  induction l generalizing m0 with
  | nil => exact absurd hx (by simp)
  | cons y l ih =>
    rw [List.map_cons, List.nodup_cons] at hnd
    rcases List.mem_cons.mp hx with hxy | hxl
    · subst hxy
      refine ⟨m0, ?_⟩
      rw [List.foldl_cons,
        objGet_foldl_setdep_of_not_mem f g l _ (f x)
          (fun z hz hfz => hnd.1 (hfz ▸ List.mem_map_of_mem f hz)),
        objGet_objSet_self]
    · exact List.foldl_cons .. ▸ ih (objSet m0 (f y) (g m0 y)) hxl hnd.2

/-- Every key of a map built by folding `objSet` comes from the fold keys or
from the initial map. -/
theorem key_mem_foldl_objSet {α β : Type} (f : β → String) (g : β → α)
    (l : List β) (m0 : List (String × α)) (e : String × α)
    (he : e ∈ l.foldl (fun m x => objSet m (f x) (g x)) m0) :
    e.1 ∈ l.map f ∨ e.1 ∈ m0.map Prod.fst := by
  induction l generalizing m0 with
  | nil => exact Or.inr (List.mem_map_of_mem Prod.fst he)
  | cons y l ih =>
    rw [List.foldl_cons] at he
    rcases ih _ he with h1 | h2
    · exact Or.inl (by simp [List.mem_cons] at h1 ⊢; tauto)
    · rw [objSet] at h2
      rcases List.mem_map.mp h2 with ⟨e', he', hfst⟩
      rcases List.mem_append.mp he' with h3 | h4
      · exact Or.inr (hfst ▸ List.mem_map_of_mem Prod.fst (List.mem_of_mem_filter h3))
      · left
        rw [List.mem_singleton.mp h4] at hfst
        simp [← hfst]

/-- What `issuesDeleteClosed` does at each key: deleted exactly when some
fetched issue with that id is non-open, untouched otherwise. -/
theorem objGet_issuesDeleteClosed {Vec : Type}
    (m0 : List (String × IssueVector Vec)) (l : List GhIssue) (k : String) :
    objGet (issuesDeleteClosed m0 l) k =
      if l.any (fun j => j.id == k && j.state != .OPEN) then none
      else objGet m0 k := by
  induction l generalizing m0 with
  | nil => rfl
  | cons j l ih =>
    rw [issuesDeleteClosed, List.foldl_cons, ← issuesDeleteClosed, ih, List.any_cons]
    by_cases hst : j.state = IssueState.OPEN
    · have hst' : (j.state != IssueState.OPEN) = false := by
        simp [hst]
      simp [hst']
    · have hst' : (j.state != IssueState.OPEN) = true := by
        simp [hst]
      simp only [hst', if_true, Bool.and_true]
      by_cases hid : j.id = k
      · have hid' : (j.id == k) = true := by simp [hid]
        simp only [hid', Bool.true_or, if_true]
        by_cases hrest : l.any (fun j => j.id == k && j.state != .OPEN)
        · simp [hrest]
        · rw [if_neg hrest, hid, objGet_objDel_self]
      · have hid' : (j.id == k) = false := by simp [hid]
        simp only [hid', Bool.false_or]
        by_cases hrest : l.any (fun j => j.id == k && j.state != .OPEN)
        · simp [hrest]
        · simp [hrest, objGet_objDel_ne _ _ _ (fun hkk => hid hkk.symm)]

/-! ### Facts about the merge-step maps -/

theorem enum_map_snd_comp {α β : Type} (l : List α) (f : α → β) :
    l.enum.map (fun p => f p.2) = l.map f := by
  rw [show (fun p : Nat × α => f p.2) = f ∘ Prod.snd from rfl, ← List.map_map,
    List.enum_map_snd]

theorem nodup_open_ids (allIssues : List GhIssue)
    (hnd : (allIssues.map GhIssue.id).Nodup) :
    ((openIssuesOf allIssues).map GhIssue.id).Nodup :=
  List.Nodup.sublist (List.Sublist.map GhIssue.id (List.filter_sublist allIssues)) hnd

theorem nodup_prsToEmbed_ids {Vec : Type}
    (m0 : List (String × PullRequestVector Vec)) (allPRs : List GhPullRequest)
    (hnd : (allPRs.map GhPullRequest.id).Nodup) :
    ((prsToEmbedOf m0 allPRs).map GhPullRequest.id).Nodup :=
  List.Nodup.sublist (List.Sublist.map GhPullRequest.id (List.filter_sublist allPRs)) hnd

theorem embedIfNonempty_of_ne {Vec : Type} (embed : List String → List Vec)
    (texts : List String) (h : texts ≠ []) :
    embedIfNonempty embed texts = embed texts := by
  rw [embedIfNonempty, if_pos (List.length_pos.mpr h)]

theorem mem_of_objGet_eq_some {α : Type} (m : List (String × α)) (k : String)
    (v : α) (h : objGet m k = some v) : (k, v) ∈ m := by
  rw [objGet] at h
  obtain ⟨e, hfind, hsnd⟩ := Option.map_eq_some'.mp h
  have hmem := List.mem_of_find?_eq_some hfind
  have hpred : e.1 = k := by simpa using List.find?_some hfind
  have : e = (k, v) := Prod.ext hpred hsnd
  exact this ▸ hmem

theorem objSet_keys_nodup {α : Type} (m : List (String × α)) (k : String) (v : α)
    (h : (m.map Prod.fst).Nodup) : ((objSet m k v).map Prod.fst).Nodup := by
  rw [objSet, List.map_append]
  rw [List.nodup_append]
  refine ⟨List.Nodup.sublist
    (List.Sublist.map Prod.fst (List.filter_sublist m)) h, by simp, ?_⟩
  intro a ha
  rcases List.mem_map.mp ha with ⟨e, he, hfst⟩
  have := List.of_mem_filter he
  simp only [bne_iff_ne, ne_eq] at this
  simp only [List.map_cons, List.map_nil, List.mem_singleton]
  exact fun hak => this (hfst ▸ hak)

theorem foldl_objSet_keys_nodup {α β : Type} (f : β → String) (g : β → α)
    (l : List β) (m0 : List (String × α)) (h : (m0.map Prod.fst).Nodup) :
    (((l.foldl (fun m x => objSet m (f x) (g x)) m0)).map Prod.fst).Nodup := by
  induction l generalizing m0 with
  | nil => exact h
  | cons y l ih => exact List.foldl_cons .. ▸ ih _ (objSet_keys_nodup _ _ _ h)

/-- The `issueVectors` entry of the `k`-th open fetched issue: keyed by its id,
carrying the `k`-th vector of the issue batch. -/
theorem objGet_issueVectorsOf {Vec : Type} (embed : List String → List Vec)
    (dV : Vec) (allIssues : List GhIssue)
    (hnd : (allIssues.map GhIssue.id).Nodup) (k : Nat)
    (hk : k < (openIssuesOf allIssues).length) :
    objGet (issueVectorsOf embed dV allIssues)
        ((openIssuesOf allIssues).get ⟨k, hk⟩).id =
      some ⟨((openIssuesOf allIssues).get ⟨k, hk⟩).id,
            ((openIssuesOf allIssues).get ⟨k, hk⟩).number, "open",
            (embedIfNonempty embed (issueTextsOf allIssues)).getD k dV⟩ := by
  have hx : (k, (openIssuesOf allIssues).get ⟨k, hk⟩) ∈ (openIssuesOf allIssues).enum := by
    rw [List.mem_enum_iff_getElem?, List.get_eq_getElem]
    exact List.getElem?_eq_getElem hk
  have hnd' : ((openIssuesOf allIssues).enum.map (fun p => p.2.id)).Nodup := by
    rw [enum_map_snd_comp]
    exact nodup_open_ids allIssues hnd
  have hget := objGet_foldl_objSet_of_mem (fun p : Nat × GhIssue => p.2.id)
    (fun p : Nat × GhIssue =>
      (⟨p.2.id, p.2.number, "open",
        (embedIfNonempty embed (issueTextsOf allIssues)).getD p.1 dV⟩ : IssueVector Vec))
    ((openIssuesOf allIssues).enum) [] _ hx hnd'
  simpa [issueVectorsOf] using hget

theorem issueVectorsOf_keys {Vec : Type} (embed : List String → List Vec)
    (dV : Vec) (allIssues : List GhIssue) (e : String × IssueVector Vec)
    (he : e ∈ issueVectorsOf embed dV allIssues) :
    e.1 ∈ (openIssuesOf allIssues).map GhIssue.id := by
  have hk := key_mem_foldl_objSet (fun p : Nat × GhIssue => p.2.id)
    (fun p : Nat × GhIssue =>
      (⟨p.2.id, p.2.number, "open",
        (embedIfNonempty embed (issueTextsOf allIssues)).getD p.1 dV⟩ : IssueVector Vec))
    ((openIssuesOf allIssues).enum) [] e (by simpa [issueVectorsOf] using he)
  rcases hk with h1 | h2
  · rwa [enum_map_snd_comp] at h1
  · simp at h2

theorem issueVectorsOf_keys_nodup {Vec : Type} (embed : List String → List Vec)
    (dV : Vec) (allIssues : List GhIssue) :
    ((issueVectorsOf embed dV allIssues).map Prod.fst).Nodup := by
  have := foldl_objSet_keys_nodup (fun p : Nat × GhIssue => p.2.id)
    (fun p : Nat × GhIssue =>
      (⟨p.2.id, p.2.number, "open",
        (embedIfNonempty embed (issueTextsOf allIssues)).getD p.1 dV⟩ : IssueVector Vec))
    ((openIssuesOf allIssues).enum) [] (by simp)
  simpa [issueVectorsOf] using this

/-- The merged issues map at the id of the `k`-th open fetched issue. -/
theorem objGet_mergedIssuesOf_open {Vec : Type} (embed : List String → List Vec)
    (dV : Vec) (m0 : List (String × IssueVector Vec)) (allIssues : List GhIssue)
    (hnd : (allIssues.map GhIssue.id).Nodup) (k : Nat)
    (hk : k < (openIssuesOf allIssues).length) :
    objGet (mergedIssuesOf embed dV m0 allIssues)
        ((openIssuesOf allIssues).get ⟨k, hk⟩).id =
      some ⟨((openIssuesOf allIssues).get ⟨k, hk⟩).id,
            ((openIssuesOf allIssues).get ⟨k, hk⟩).number, "open",
            (embedIfNonempty embed (issueTextsOf allIssues)).getD k dV⟩ := by
  have h1 := objGet_issueVectorsOf embed dV allIssues hnd k hk
  have hmem := mem_of_objGet_eq_some _ _ _ h1
  have hget := objGet_foldl_objSet_of_mem (Prod.fst) (Prod.snd)
    (issueVectorsOf embed dV allIssues) (issuesDeleteClosed m0 allIssues)
    _ hmem (issueVectorsOf_keys_nodup embed dV allIssues)
  simpa [mergedIssuesOf] using hget

/-- A fetched non-open issue is absent from the merged issues map. -/
theorem objGet_mergedIssuesOf_closed {Vec : Type} (embed : List String → List Vec)
    (dV : Vec) (m0 : List (String × IssueVector Vec)) (allIssues : List GhIssue)
    (hnd : (allIssues.map GhIssue.id).Nodup) (i : GhIssue) (hi : i ∈ allIssues)
    (hcl : i.state ≠ .OPEN) :
    objGet (mergedIssuesOf embed dV m0 allIssues) i.id = none := by
  have hkeys : ∀ e ∈ issueVectorsOf embed dV allIssues, e.1 ≠ i.id := by
    intro e he heq
    rcases List.mem_map.mp (issueVectorsOf_keys embed dV allIssues e he) with ⟨j, hj, hjid⟩
    obtain ⟨hjall, hjopen⟩ : j ∈ allIssues ∧ j.state = .OPEN := by
      simpa [openIssuesOf] using hj
    have hji : j = i := List.inj_on_of_nodup_map hnd hjall hi (by rw [hjid, heq])
    exact hcl (hji ▸ hjopen)
  have houter :
      objGet (mergedIssuesOf embed dV m0 allIssues) i.id =
        objGet (issuesDeleteClosed m0 allIssues) i.id := by
    have := objGet_foldl_objSet_of_not_mem (Prod.fst) (Prod.snd)
      (issueVectorsOf embed dV allIssues) (issuesDeleteClosed m0 allIssues) i.id hkeys
    simpa [mergedIssuesOf] using this
  rw [houter, objGet_issuesDeleteClosed, if_pos]
  rw [List.any_eq_true]
  refine ⟨i, hi, ?_⟩
  simp [hcl]

/-- An issue id that is not in the fetch window is untouched by the merge. -/
theorem objGet_mergedIssuesOf_unlisted {Vec : Type} (embed : List String → List Vec)
    (dV : Vec) (m0 : List (String × IssueVector Vec)) (allIssues : List GhIssue)
    (i0 : String) (hout : i0 ∉ allIssues.map GhIssue.id) :
    objGet (mergedIssuesOf embed dV m0 allIssues) i0 = objGet m0 i0 := by
  have hkeys : ∀ e ∈ issueVectorsOf embed dV allIssues, e.1 ≠ i0 := by
    intro e he heq
    rcases List.mem_map.mp (issueVectorsOf_keys embed dV allIssues e he) with ⟨j, hj, hjid⟩
    obtain ⟨hjall, hjopen⟩ : j ∈ allIssues ∧ j.state = .OPEN := by
      simpa [openIssuesOf] using hj
    exact hout (List.mem_map.mpr ⟨j, hjall, by rw [hjid, heq]⟩)
  have houter :
      objGet (mergedIssuesOf embed dV m0 allIssues) i0 =
        objGet (issuesDeleteClosed m0 allIssues) i0 := by
    have := objGet_foldl_objSet_of_not_mem (Prod.fst) (Prod.snd)
      (issueVectorsOf embed dV allIssues) (issuesDeleteClosed m0 allIssues) i0 hkeys
    simpa [mergedIssuesOf] using this
  rw [houter, objGet_issuesDeleteClosed, if_neg]
  intro hany
  rw [List.any_eq_true] at hany
  obtain ⟨j, hj, hcond⟩ := hany
  have hjid : j.id = i0 := by
    rcases Bool.and_eq_true .. |>.mp hcond with ⟨h1, _⟩
    simpa using h1
  exact hout (List.mem_map.mpr ⟨j, hj, hjid⟩)

theorem objGet_prHashesOf (allPRs : List GhPullRequest)
    (hnd : (allPRs.map GhPullRequest.id).Nodup) (pr : GhPullRequest)
    (hpr : pr ∈ allPRs) :
    objGet (prHashesOf allPRs) pr.id = some (hashPr pr) := by
  have := objGet_foldl_objSet_of_mem (GhPullRequest.id) (hashPr) allPRs [] pr hpr hnd
  simpa [prHashesOf] using this

/-- The `prVectors` entry of the `k`-th PR marked for embedding: keyed by its
id, carrying the `k`-th vector of the PR batch, its own content hash, and the
lowercase rendering of its fetched state. -/
theorem objGet_prVectorsOf {Vec : Type} (embed : List String → List Vec)
    (dV : Vec) (m0 : List (String × PullRequestVector Vec))
    (allPRs : List GhPullRequest) (hnd : (allPRs.map GhPullRequest.id).Nodup)
    (k : Nat) (hk : k < (prsToEmbedOf m0 allPRs).length) :
    objGet (prVectorsOf embed dV m0 allPRs)
        ((prsToEmbedOf m0 allPRs).get ⟨k, hk⟩).id =
      some ⟨((prsToEmbedOf m0 allPRs).get ⟨k, hk⟩).id,
            ((prsToEmbedOf m0 allPRs).get ⟨k, hk⟩).number,
            (if ((prsToEmbedOf m0 allPRs).get ⟨k, hk⟩).state == .OPEN
              then "open" else "closed"),
            (embedIfNonempty embed (prTextsOf m0 allPRs)).getD k dV,
            hashPr ((prsToEmbedOf m0 allPRs).get ⟨k, hk⟩)⟩ := by
  have hx : (k, (prsToEmbedOf m0 allPRs).get ⟨k, hk⟩) ∈ (prsToEmbedOf m0 allPRs).enum := by
    rw [List.mem_enum_iff_getElem?, List.get_eq_getElem]
    exact List.getElem?_eq_getElem hk
  have hnd' : ((prsToEmbedOf m0 allPRs).enum.map (fun p => p.2.id)).Nodup := by
    rw [enum_map_snd_comp]
    exact nodup_prsToEmbed_ids m0 allPRs hnd
  have hget := objGet_foldl_objSet_of_mem (fun p : Nat × GhPullRequest => p.2.id)
    (fun p : Nat × GhPullRequest =>
      (⟨p.2.id, p.2.number, (if p.2.state == .OPEN then "open" else "closed"),
        (embedIfNonempty embed (prTextsOf m0 allPRs)).getD p.1 dV,
        (objGet (prHashesOf allPRs) p.2.id).getD ""⟩ : PullRequestVector Vec))
    ((prsToEmbedOf m0 allPRs).enum) [] _ hx hnd'
  have hmemall : (prsToEmbedOf m0 allPRs).get ⟨k, hk⟩ ∈ allPRs :=
    List.mem_of_mem_filter (List.get_mem ..)
  have hhash := objGet_prHashesOf allPRs hnd _ hmemall
  dsimp only [] at hget
  rw [hhash] at hget
  simpa [prVectorsOf] using hget

theorem prVectorsOf_keys {Vec : Type} (embed : List String → List Vec) (dV : Vec)
    (m0 : List (String × PullRequestVector Vec)) (allPRs : List GhPullRequest)
    (e : String × PullRequestVector Vec)
    (he : e ∈ prVectorsOf embed dV m0 allPRs) :
    e.1 ∈ (prsToEmbedOf m0 allPRs).map GhPullRequest.id := by
  have hk := key_mem_foldl_objSet (fun p : Nat × GhPullRequest => p.2.id)
    (fun p : Nat × GhPullRequest =>
      (⟨p.2.id, p.2.number, (if p.2.state == .OPEN then "open" else "closed"),
        (embedIfNonempty embed (prTextsOf m0 allPRs)).getD p.1 dV,
        (objGet (prHashesOf allPRs) p.2.id).getD ""⟩ : PullRequestVector Vec))
    ((prsToEmbedOf m0 allPRs).enum) [] e (by simpa [prVectorsOf] using he)
  rcases hk with h1 | h2
  · rwa [enum_map_snd_comp] at h1
  · simp at h2

/-- Any value stored in `prVectors` under the id of a fetched PR carries the
lowercase rendering of that PR's fetched state (given distinct fetched ids). -/
theorem objGet_prVectorsOf_state {Vec : Type} (embed : List String → List Vec)
    (dV : Vec) (m0 : List (String × PullRequestVector Vec))
    (allPRs : List GhPullRequest) (hnd : (allPRs.map GhPullRequest.id).Nodup)
    (pr : GhPullRequest) (hpr : pr ∈ allPRs) (v : PullRequestVector Vec)
    (h : objGet (prVectorsOf embed dV m0 allPRs) pr.id = some v) :
    v.state = (if pr.state == .OPEN then "open" else "closed") := by
  have h' := objGet_foldl_objSet_some (fun p : Nat × GhPullRequest => p.2.id)
    (fun p : Nat × GhPullRequest =>
      (⟨p.2.id, p.2.number, (if p.2.state == .OPEN then "open" else "closed"),
        (embedIfNonempty embed (prTextsOf m0 allPRs)).getD p.1 dV,
        (objGet (prHashesOf allPRs) p.2.id).getD ""⟩ : PullRequestVector Vec))
    ((prsToEmbedOf m0 allPRs).enum) [] pr.id v (by simpa [prVectorsOf] using h)
  rcases h' with ⟨x, hx, hfx, hv⟩ | habs
  · have hx2 : x.2 ∈ prsToEmbedOf m0 allPRs := by
      rw [List.mem_enum_iff_getElem?] at hx
      exact List.getElem?_mem hx
    have hx2all : x.2 ∈ allPRs := List.mem_of_mem_filter hx2
    have hxpr : x.2 = pr := List.inj_on_of_nodup_map hnd hx2all hpr hfx
    subst hv
    dsimp only []
    rw [hxpr]
  · simp [objGet] at habs

/-- When the fresh `prVectors` map has an entry for a fetched PR, that entry is
what the final merge loop stores for it. -/
theorem objGet_mergedPRsOf_of_prVec {Vec : Type} (embed : List String → List Vec)
    (dV : Vec) (dP : PullRequestVector Vec)
    (m0 : List (String × PullRequestVector Vec)) (allPRs : List GhPullRequest)
    (hnd : (allPRs.map GhPullRequest.id).Nodup) (pr : GhPullRequest)
    (hpr : pr ∈ allPRs) (v : PullRequestVector Vec)
    (hv : objGet (prVectorsOf embed dV m0 allPRs) pr.id = some v) :
    objGet (mergedPRsOf embed dV dP m0 allPRs) pr.id = some v := by
  obtain ⟨m', hm'⟩ := objGet_foldl_setdep_of_mem (GhPullRequest.id)
    (fun m pr => mergedPrEntry (prVectorsOf embed dV m0 allPRs)
      (prHashesOf allPRs) dP m pr) allPRs m0 pr hpr hnd
  have hentry : mergedPrEntry (prVectorsOf embed dV m0 allPRs)
      (prHashesOf allPRs) dP m' pr = v := by
    rw [mergedPrEntry, hv]
  rw [mergedPRsOf]
  rw [hm', hentry]

/-- Every fetched PR has an entry in the final merged map, and its `state`
field is the lowercase rendering of the fetched state — in particular a fetched
closed or merged PR persists (state `"closed"`) rather than being deleted. -/
theorem objGet_mergedPRsOf_mem {Vec : Type} (embed : List String → List Vec)
    (dV : Vec) (dP : PullRequestVector Vec)
    (m0 : List (String × PullRequestVector Vec)) (allPRs : List GhPullRequest)
    (hnd : (allPRs.map GhPullRequest.id).Nodup) (pr : GhPullRequest)
    (hpr : pr ∈ allPRs) :
    ∃ e, objGet (mergedPRsOf embed dV dP m0 allPRs) pr.id = some e ∧
      e.state = (if pr.state == .OPEN then "open" else "closed") := by
  obtain ⟨m', hm'⟩ := objGet_foldl_setdep_of_mem (GhPullRequest.id)
    (fun m pr => mergedPrEntry (prVectorsOf embed dV m0 allPRs)
      (prHashesOf allPRs) dP m pr) allPRs m0 pr hpr hnd
  refine ⟨_, by rw [mergedPRsOf]; exact hm', ?_⟩
  rw [mergedPrEntry]
  cases hv : objGet (prVectorsOf embed dV m0 allPRs) pr.id with
  | none => simp
  | some v =>
    simpa using objGet_prVectorsOf_state embed dV m0 allPRs hnd pr hpr v hv

/-! ### C1 — deletion correctness -/

set_option maxRecDepth 100000 in
/-- C1 counterexample: the pull request `P1` is present in the prior object and
is fetched with state CLOSED, yet after the merge it is still present — with
state `"closed"` — so it is not absent from the written object, and not every
entry of the written object has state open. -/
theorem c1_counterexample :
    prClosed1.state = PrState.CLOSED ∧
      (objGet priorC1.pullRequests ("P1")).isSome = true ∧
      (objGet (syncMerge embN 0 dP0 ("acme/widgets") (some priorC1)
          [] [prClosed1] 60).pullRequests ("P1")).map
        (fun e => e.state) = some ("closed") := by
  refine ⟨rfl, rfl, ?_⟩
  decide

/-- C1 amended: with distinct fetched ids, every fetched non-open issue is
absent from the merged issues map, but fetched pull requests are never
deleted — every fetched PR (open, closed or merged) has an entry in the merged
map, with state `"open"` exactly when fetched OPEN; closed/merged PRs persist
with state `"closed"`, so not every entry of the written object is open. -/
theorem c1_amended {Vec : Type} (embed : List String → List Vec) (dV : Vec)
    (dP : PullRequestVector Vec) (fullName : String)
    (existing : Option (VectorObject Vec)) (allIssues : List GhIssue)
    (allPRs : List GhPullRequest) (now1 : Nat)
    (hndI : (allIssues.map GhIssue.id).Nodup)
    (hndP : (allPRs.map GhPullRequest.id).Nodup) :
    (∀ i ∈ allIssues, i.state ≠ .OPEN →
      objGet (syncMerge embed dV dP fullName existing allIssues allPRs now1).issues
        i.id = none) ∧
    (∀ pr ∈ allPRs, ∃ e,
      objGet (syncMerge embed dV dP fullName existing allIssues allPRs now1).pullRequests
        pr.id = some e ∧
      e.state = (if pr.state = .OPEN then "open" else "closed")) := by
  constructor
  · intro i hi hcl
    have := objGet_mergedIssuesOf_closed embed dV
      ((existing.map (·.issues)).getD []) allIssues hndI i hi hcl
    simpa [syncMerge] using this
  · intro pr hpr
    obtain ⟨e, he, hst⟩ := objGet_mergedPRsOf_mem embed dV dP
      ((existing.map (·.pullRequests)).getD []) allPRs hndP pr hpr
    refine ⟨e, by simpa [syncMerge] using he, ?_⟩
    rw [hst]
    by_cases h : pr.state = .OPEN <;> simp [h]

/-- Witness for C1's amended theorem at a concrete closed issue and closed PR:
the id-distinctness hypotheses hold and the theorem applies. -/
theorem c1_amended_witness :
    (([issueClosed2].map GhIssue.id).Nodup ∧
      ([prClosed1].map GhPullRequest.id).Nodup) ∧
      ((∀ i ∈ [issueClosed2], i.state ≠ .OPEN →
        objGet (syncMerge embN 0 dP0 ("acme/widgets") (some priorC1)
          [issueClosed2] [prClosed1] 60).issues i.id = none) ∧
      (∀ pr ∈ [prClosed1], ∃ e,
        objGet (syncMerge embN 0 dP0 ("acme/widgets") (some priorC1)
          [issueClosed2] [prClosed1] 60).pullRequests pr.id = some e ∧
        e.state = (if pr.state = .OPEN then "open" else "closed"))) :=
  ⟨⟨by decide, by decide⟩,
   c1_amended embN 0 dP0 ("acme/widgets") (some priorC1) [issueClosed2]
     [prClosed1] 60 (by decide) (by decide)⟩

/-! ### C4 — the issue merge rule -/

/-- C4: with distinct fetched issue ids, (a) the `k`-th open fetched issue is
embedded (its normalized text is in the issue batch) and its entry — keyed by
its id, state `"open"`, carrying the `k`-th vector of the batch — is written
over the merged map unconditionally; (b) a fetched CLOSED issue is absent from
the merged map (deleted if it was present) and is not in the open batch;
(c) an issue id absent from the fetched list is left untouched. -/
theorem c4_issue_merge_rule {Vec : Type} (embed : List String → List Vec)
    (dV : Vec) (m0 : List (String × IssueVector Vec)) (allIssues : List GhIssue)
    (hnd : (allIssues.map GhIssue.id).Nodup) :
    (∀ k (hk : k < (openIssuesOf allIssues).length),
      prepIssue ((openIssuesOf allIssues).get ⟨k, hk⟩) ∈ issueTextsOf allIssues ∧
      objGet (mergedIssuesOf embed dV m0 allIssues)
          ((openIssuesOf allIssues).get ⟨k, hk⟩).id =
        some ⟨((openIssuesOf allIssues).get ⟨k, hk⟩).id,
              ((openIssuesOf allIssues).get ⟨k, hk⟩).number, "open",
              (embed (issueTextsOf allIssues)).getD k dV⟩) ∧
    (∀ i ∈ allIssues, i.state = .CLOSED →
      objGet (mergedIssuesOf embed dV m0 allIssues) i.id = none ∧
      i ∉ openIssuesOf allIssues) ∧
    (∀ i0 : String, i0 ∉ allIssues.map GhIssue.id →
      objGet (mergedIssuesOf embed dV m0 allIssues) i0 = objGet m0 i0) := by
  refine ⟨?_, ?_, ?_⟩
  · intro k hk
    have hne : issueTextsOf allIssues ≠ [] := by
      intro hemp
      have hlen : (openIssuesOf allIssues).length = 0 := by
        simpa [issueTextsOf] using congrArg List.length hemp
      omega
    constructor
    · rw [issueTextsOf]
      exact List.mem_map_of_mem prepIssue (List.get_mem ..)
    · have hopen := objGet_mergedIssuesOf_open embed dV m0 allIssues hnd k hk
      rwa [embedIfNonempty_of_ne embed _ hne] at hopen
  · intro i hi hcl
    have hcl' : i.state ≠ .OPEN := by
      rw [hcl]
      intro hcon
      exact IssueState.noConfusion hcon
    refine ⟨objGet_mergedIssuesOf_closed embed dV m0 allIssues hnd i hi hcl', ?_⟩
    intro hopen
    obtain ⟨_, hst⟩ : i ∈ allIssues ∧ i.state = .OPEN := by
      simpa [openIssuesOf] using hopen
    exact hcl' hst
  · intro i0 h
    exact objGet_mergedIssuesOf_unlisted embed dV m0 allIssues i0 h

/-- Witness for C4 at a concrete two-issue fetch window over a prior map. -/
theorem c4_issue_merge_rule_witness :
    (([issueOpen1, issueClosed2].map GhIssue.id).Nodup) ∧
      ((∀ k (hk : k < (openIssuesOf [issueOpen1, issueClosed2]).length),
        prepIssue ((openIssuesOf [issueOpen1, issueClosed2]).get ⟨k, hk⟩) ∈
          issueTextsOf [issueOpen1, issueClosed2] ∧
        objGet (mergedIssuesOf embN 0 [("I9", ⟨"I9", 9, "open", 3⟩)]
            [issueOpen1, issueClosed2])
            ((openIssuesOf [issueOpen1, issueClosed2]).get ⟨k, hk⟩).id =
          some ⟨((openIssuesOf [issueOpen1, issueClosed2]).get ⟨k, hk⟩).id,
                ((openIssuesOf [issueOpen1, issueClosed2]).get ⟨k, hk⟩).number,
                "open",
                (embN (issueTextsOf [issueOpen1, issueClosed2])).getD k 0⟩) ∧
      (∀ i ∈ [issueOpen1, issueClosed2], i.state = .CLOSED →
        objGet (mergedIssuesOf embN 0 [("I9", ⟨"I9", 9, "open", 3⟩)]
          [issueOpen1, issueClosed2]) i.id = none ∧
        i ∉ openIssuesOf [issueOpen1, issueClosed2]) ∧
      (∀ i0 : String, i0 ∉ [issueOpen1, issueClosed2].map GhIssue.id →
        objGet (mergedIssuesOf embN 0 [("I9", ⟨"I9", 9, "open", 3⟩)]
          [issueOpen1, issueClosed2]) i0 =
          objGet [("I9", ⟨"I9", 9, "open", 3⟩)] i0)) :=
  ⟨by decide,
   c4_issue_merge_rule embN 0 [("I9", ⟨"I9", 9, "open", 3⟩)]
     [issueOpen1, issueClosed2] (by decide)⟩

/-! ### C5 — embedding batching -/

/-- C5 counterexample: the texts of one sync are submitted as two batches (one
for issues, one for PRs), not one; and the PR batch is not restricted to open
PRs — a closed fetched PR with a new hash is embedded, so the total batch size
is 1 where the claim's account |open issues| + |open changed-or-new PRs|
gives 0. -/
theorem c5_counterexample :
    (syncEmbedCalls emptyPrMap [] [prClosed1]).flatten.length = 1 ∧
      (openIssuesOf []).length +
        ((prsToEmbedOf emptyPrMap [prClosed1]).filter
          (fun pr => pr.state == .OPEN)).length = 0 ∧
      (syncEmbedCalls emptyPrMap [issueOpen1] [prOpen2]).length = 2 := by
  refine ⟨?_, ?_, ?_⟩ <;> decide

/-- C5 amended: the embedding work of one sync is submitted as up to two
ordered batches — the open-issue texts and the texts of the PRs (of any state)
whose hash is new or changed, each batch skipped when empty; the total number
of submitted texts is |open fetched issues| + |fetched PRs with changed-or-new
hash|; and the `k`-th PR marked for embedding receives exactly the `k`-th
vector of the PR batch, together with its own content hash, in its merged
entry. -/
theorem c5_amended {Vec : Type} (embed : List String → List Vec) (dV : Vec)
    (dP : PullRequestVector Vec) (m0 : List (String × PullRequestVector Vec))
    (allIssues : List GhIssue) (allPRs : List GhPullRequest)
    (hndP : (allPRs.map GhPullRequest.id).Nodup) :
    syncEmbedCalls m0 allIssues allPRs =
      (if issueTextsOf allIssues = [] then [] else [issueTextsOf allIssues]) ++
        (if prTextsOf m0 allPRs = [] then [] else [prTextsOf m0 allPRs]) ∧
    (syncEmbedCalls m0 allIssues allPRs).flatten.length =
      (openIssuesOf allIssues).length + (prsToEmbedOf m0 allPRs).length ∧
    (∀ k (hk : k < (prsToEmbedOf m0 allPRs).length), ∃ e,
      objGet (mergedPRsOf embed dV dP m0 allPRs)
          ((prsToEmbedOf m0 allPRs).get ⟨k, hk⟩).id = some e ∧
        e.id = ((prsToEmbedOf m0 allPRs).get ⟨k, hk⟩).id ∧
        e.vector = (embed (prTextsOf m0 allPRs)).getD k dV ∧
        e.hash = hashPr ((prsToEmbedOf m0 allPRs).get ⟨k, hk⟩)) := by
  have hshape : syncEmbedCalls m0 allIssues allPRs =
      (if issueTextsOf allIssues = [] then [] else [issueTextsOf allIssues]) ++
        (if prTextsOf m0 allPRs = [] then [] else [prTextsOf m0 allPRs]) := by
    rw [syncEmbedCalls]
    by_cases h1 : issueTextsOf allIssues = [] <;>
      by_cases h2 : prTextsOf m0 allPRs = [] <;>
      simp [h1, h2, List.length_pos.mpr, List.isEmpty_iff]
  refine ⟨hshape, ?_, ?_⟩
  · rw [hshape]
    have hlen1 : (issueTextsOf allIssues).length = (openIssuesOf allIssues).length := by
      rw [issueTextsOf, List.length_map]
    have hlen2 : (prTextsOf m0 allPRs).length = (prsToEmbedOf m0 allPRs).length := by
      rw [prTextsOf, List.length_map]
    by_cases h1 : issueTextsOf allIssues = []
    · have e1 : (openIssuesOf allIssues).length = 0 := by
        rw [← hlen1, h1]
        rfl
      by_cases h2 : prTextsOf m0 allPRs = []
      · have e2 : (prsToEmbedOf m0 allPRs).length = 0 := by
          rw [← hlen2, h2]
          rfl
        simp [h1, h2, e1, e2]
      · simp [h1, h2, e1, hlen2]
    · by_cases h2 : prTextsOf m0 allPRs = []
      · have e2 : (prsToEmbedOf m0 allPRs).length = 0 := by
          rw [← hlen2, h2]
          rfl
        simp [h1, h2, e2, hlen1]
      · simp [h1, h2, hlen1, hlen2]
  · intro k hk
    have hne : prTextsOf m0 allPRs ≠ [] := by
      intro hemp
      have hlen : (prsToEmbedOf m0 allPRs).length = 0 := by
        simpa [prTextsOf] using congrArg List.length hemp
      omega
    have hv := objGet_prVectorsOf embed dV m0 allPRs hndP k hk
    rw [embedIfNonempty_of_ne embed _ hne] at hv
    have hmemall : (prsToEmbedOf m0 allPRs).get ⟨k, hk⟩ ∈ allPRs :=
      List.mem_of_mem_filter (List.get_mem ..)
    have hfinal := objGet_mergedPRsOf_of_prVec embed dV dP m0 allPRs hndP
      _ hmemall _ hv
    exact ⟨_, hfinal, rfl, rfl, rfl⟩

/-- Witness for C5's amended theorem at a concrete one-issue one-PR window. -/
theorem c5_amended_witness :
    (([prOpen2].map GhPullRequest.id).Nodup) ∧
      (syncEmbedCalls emptyPrMap [issueOpen1] [prOpen2] =
        (if issueTextsOf [issueOpen1] = [] then []
          else [issueTextsOf [issueOpen1]]) ++
        (if prTextsOf emptyPrMap [prOpen2] = [] then []
          else [prTextsOf emptyPrMap [prOpen2]]) ∧
      (syncEmbedCalls emptyPrMap [issueOpen1] [prOpen2]).flatten.length =
        (openIssuesOf [issueOpen1]).length +
          (prsToEmbedOf emptyPrMap [prOpen2]).length ∧
      (∀ k (hk : k < (prsToEmbedOf emptyPrMap [prOpen2]).length), ∃ e,
        objGet (mergedPRsOf embN 0 dP0 [] [prOpen2])
            ((prsToEmbedOf emptyPrMap [prOpen2]).get ⟨k, hk⟩).id = some e ∧
          e.id = ((prsToEmbedOf emptyPrMap [prOpen2]).get ⟨k, hk⟩).id ∧
          e.vector = (embN (prTextsOf emptyPrMap [prOpen2])).getD k 0 ∧
          e.hash = hashPr ((prsToEmbedOf emptyPrMap [prOpen2]).get ⟨k, hk⟩))) :=
  ⟨by decide, c5_amended embN 0 dP0 emptyPrMap [issueOpen1] [prOpen2] (by decide)⟩

/-- C2 counterexample: with a positive watermark (incremental mode), a CLOSED
issue updated after `since` is not returned (the issues query always filters
`states: OPEN`), and a MERGED pull request is not returned either (the PR query
filters `states: OPEN` and takes no `since` at all) — contradicting
"regardless of their state". -/
theorem c2_counterexample :
    5 ≤ remoteIssueClosed.updatedAt ∧ sinceParam 5 = some 5 ∧
      fetchIssuesResult [remoteIssueClosed] (sinceParam 5) = [] ∧
      5 ≤ remotePrMerged.updatedAt ∧
      fetchPullRequestsResult [remotePrMerged] = [] := by
  refine ⟨by decide, by decide, by decide, by decide, by decide⟩

/-- C2 amended: both modes fetch only OPEN items.  An upstream issue is
returned exactly when it is open and — in incremental mode (`lastSyncAt > 0`)
— updated at or after the watermark; an upstream pull request is returned
exactly when it is open, the watermark playing no role at all (so closed and
merged items are never observed by the merge step). -/
theorem c2_amended (upstreamI : List RemoteIssue)
    (upstreamP : List RemotePullRequest) (lastSyncAt : Nat) :
    (∀ i ∈ upstreamI,
      i ∈ fetchIssuesResult upstreamI (sinceParam lastSyncAt) ↔
        (i.state = .OPEN ∧ (0 < lastSyncAt → lastSyncAt ≤ i.updatedAt))) ∧
    (∀ p ∈ upstreamP,
      p ∈ fetchPullRequestsResult upstreamP ↔ p.state = .OPEN) := by
  constructor
  · intro i hi
    rw [fetchIssuesResult, List.mem_filter]
    by_cases hpos : 0 < lastSyncAt
    · rw [sinceParam, if_pos hpos]
      simp [hi, hpos]
    · rw [sinceParam, if_neg hpos]
      simp [hi, hpos]
  · intro p hp
    rw [fetchPullRequestsResult, List.mem_filter]
    simp [hp]

/-- Witness for C2's amended theorem: an open issue updated after the watermark
is fetched incrementally; a merged PR is not fetched. -/
theorem c2_amended_witness :
    remoteIssueOpen ∈ fetchIssuesResult [remoteIssueOpen] (sinceParam 5) ∧
      remotePrMerged ∉ fetchPullRequestsResult [remotePrMerged] :=
  ⟨((c2_amended [remoteIssueOpen] [] 5).1 remoteIssueOpen (by decide)).mpr
      ⟨rfl, fun _ => by decide⟩,
   fun hmem => absurd
      (((c2_amended [] [remotePrMerged] 5).2 remotePrMerged (by decide)).mp hmem)
      (by decide)⟩

/-! ### C10 — submit idempotence -/

/-- C10: submitting a repository URL that parses to an `(owner, repo)` pair
already present in the metadata store is idempotent: the handler returns the
existing record and the table is unchanged — no insert, no row mutation. -/
theorem c10_submit_idempotent (db : List RepositoryRecord) (repoUrl : String)
    (now newId : Nat) (fn o r : String) (rec : RepositoryRecord)
    (hparse : parseGitHubRepoUrl repoUrl = .ok fn o r)
    (hexist : selectByOwnerRepo db o r = some rec) :
    submitHandler db repoUrl now newId = ⟨db, .okExisting rec⟩ := by
  simp only [submitHandler, hparse, hexist]

/-- Witness for C10 at a concrete store already holding `acme/widgets`. -/
theorem c10_submit_idempotent_witness :
    parseGitHubRepoUrl ("acme/widgets") =
        .ok ("acme/widgets") ("acme") ("widgets") ∧
      selectByOwnerRepo [rec0] ("acme") ("widgets") = some rec0 ∧
      submitHandler [rec0] ("acme/widgets") 99 7 = ⟨[rec0], .okExisting rec0⟩ :=
  ⟨by decide, by decide,
   c10_submit_idempotent [rec0] ("acme/widgets") 99 7 ("acme/widgets") ("acme")
     ("widgets") rec0 (by decide) (by decide)⟩

/-! ### C3 — missing sync gating -/

/-- C3 (code bug): the sync handler's pre-check — the source comment above it
reads "Check if already syncing" — tests only that the repository row exists,
and the schema it queries has no `status` column at all.  At a concrete
existing repository the handler runs the full pipeline: embedding calls are
made, the artifact is written, and `lastSyncAt` is overwritten — so a
`triggerSync` issued while a sync is in flight is never a no-op. -/
theorem c3_no_gating :
    ("status") ∉ repositoriesColumns ∧
      (syncHandler embN 0 dP0 [rec0] none ("acme") ("widgets")
        (.ok ([issueOpen1], [])) 100 101).embedCalls = [[prepIssue issueOpen1]] ∧
      (syncHandler embN 0 dP0 [rec0] none ("acme") ("widgets")
        (.ok ([issueOpen1], [])) 100 101).storage.isSome = true ∧
      (syncHandler embN 0 dP0 [rec0] none ("acme") ("widgets")
        (.ok ([issueOpen1], [])) 100 101).db =
        [⟨1, "acme", "widgets", 101, 5, 101⟩] ∧
      rec0.lastSyncAt = 42 := by
  decide

/-! ### C6 — lifecycle updates around one sync -/

/-- C6 counterexample: at a concrete failing sync the handler leaves the
repositories table entirely unchanged — no `status = error` is set and no
`errorMessage` is recorded, and indeed the schema backing this handler has
neither column; the failure message appears only in the HTTP response. -/
theorem c6_counterexample :
    (syncHandler embN 0 dP0 [rec0] none ("acme") ("widgets")
        (.error ("boom")) 100 101).db = [rec0] ∧
      (syncHandler embN 0 dP0 [rec0] none ("acme") ("widgets")
        (.error ("boom")) 100 101).response = .syncFailed ("boom") ∧
      ("status") ∉ repositoriesColumns ∧
      ("errorMessage") ∉ repositoriesColumns := by
  decide

/-- C6 amended: for a tracked repository, (a) a failure (before the write
stages) leaves the metadata table and the artifact untouched — in particular
`lastSyncAt` is unchanged — and surfaces the message only in the HTTP
response; (b) on full success the matching row gets `lastSyncAt` and
`updatedAt` set to the update-time clock and every other row is unchanged;
(c) the table has no `status` or `errorMessage` columns, and the success-path
update touches exactly `lastSyncAt` and `updatedAt`. -/
theorem c6_amended {Vec : Type} (embed : List String → List Vec) (dV : Vec)
    (dP : PullRequestVector Vec) (db : List RepositoryRecord)
    (storage : Option (VectorObject Vec)) (o r msg : String)
    (allIssues : List GhIssue) (allPRs : List GhPullRequest)
    (now1 now2 : Nat) (rec : RepositoryRecord)
    (hrec : selectByOwnerRepo db o r = some rec) :
    syncHandler embed dV dP db storage o r (.error msg) now1 now2 =
      ⟨db, storage, [], .syncFailed msg⟩ ∧
    (∀ rec' ∈ db,
      (rec'.owner = o ∧ rec'.repo = r →
        { rec' with lastSyncAt := now2, updatedAt := now2 } ∈
          (syncHandler embed dV dP db storage o r
            (.ok (allIssues, allPRs)) now1 now2).db) ∧
      (¬(rec'.owner = o ∧ rec'.repo = r) →
        rec' ∈ (syncHandler embed dV dP db storage o r
          (.ok (allIssues, allPRs)) now1 now2).db)) ∧
    ("status") ∉ repositoriesColumns ∧
    ("errorMessage") ∉ repositoriesColumns ∧
    syncSuccessUpdateColumns = ["lastSyncAt", "updatedAt"] := by
  have hdb : (syncHandler embed dV dP db storage o r
      (.ok (allIssues, allPRs)) now1 now2).db = dbUpdateSync db o r now2 := by
    simp only [syncHandler, hrec]
  refine ⟨by simp only [syncHandler, hrec], ?_, by decide, by decide, rfl⟩
  intro rec' hrec'
  constructor
  · intro ⟨ho, hr2⟩
    rw [hdb, dbUpdateSync]
    refine List.mem_map.mpr ⟨rec', hrec', ?_⟩
    rw [if_pos (by simp [ho, hr2])]
  · intro hnot
    rw [hdb, dbUpdateSync]
    refine List.mem_map.mpr ⟨rec', hrec', ?_⟩
    rw [if_neg]
    intro hcond
    rcases Bool.and_eq_true .. |>.mp hcond with ⟨h1, h2⟩
    exact hnot ⟨by simpa using h1, by simpa using h2⟩

/-- Witness for C6's amended theorem at a concrete one-row table. -/
theorem c6_amended_witness :
    selectByOwnerRepo [rec0] ("acme") ("widgets") = some rec0 ∧
      (syncHandler embN 0 dP0 [rec0] none ("acme") ("widgets")
          (.error ("down")) 100 101 =
        ⟨[rec0], none, [], .syncFailed ("down")⟩ ∧
      (∀ rec' ∈ [rec0],
        (rec'.owner = ("acme") ∧ rec'.repo = ("widgets") →
          { rec' with lastSyncAt := 101, updatedAt := 101 } ∈
            (syncHandler embN 0 dP0 [rec0] none ("acme") ("widgets")
              (.ok ([issueOpen1], [])) 100 101).db) ∧
        (¬(rec'.owner = ("acme") ∧ rec'.repo = ("widgets")) →
          rec' ∈ (syncHandler embN 0 dP0 [rec0] none ("acme") ("widgets")
            (.ok ([issueOpen1], [])) 100 101).db)) ∧
      ("status") ∉ repositoriesColumns ∧
      ("errorMessage") ∉ repositoriesColumns ∧
      syncSuccessUpdateColumns = ["lastSyncAt", "updatedAt"]) :=
  ⟨by decide,
   c6_amended embN 0 dP0 [rec0] none ("acme") ("widgets") ("down")
     [issueOpen1] [] 100 101 rec0 (by decide)⟩

/-! ### C7 — hash determinism and sensitivity -/

theorem wordBytes_lt (w : Nat) : ∀ b ∈ wordBytes w, b < 256 := by
  intro b hb
  simp [wordBytes] at hb
  rcases hb with rfl | rfl | rfl | rfl <;> exact Nat.mod_lt _ (by norm_num)

theorem sha256_bytes_lt (msg : List Nat) : ∀ b ∈ sha256 msg, b < 256 := by
  intro b hb
  simp only [sha256, List.mem_append] at hb
  rcases hb with ((((((h | h) | h) | h) | h) | h) | h) | h <;>
    exact wordBytes_lt _ b h

theorem sha256_length (msg : List Nat) : (sha256 msg).length = 32 := by
  simp [sha256, wordBytes]

theorem hexDigit_mem : ∀ n, n < 16 → hexDigit n ∈ ("0123456789abcdef".toList) := by
  decide

theorem bytesToHex_length (bs : List Nat) : (bytesToHex bs).length = 2 * bs.length := by
  rw [bytesToHex]
  show ((bs.map byteHex).flatten).length = 2 * bs.length
  induction bs with
  | nil => rfl
  | cons b bs ih =>
    simp only [List.map_cons, List.flatten_cons, List.length_append, ih]
    simp [byteHex]
    omega

theorem bytesToHex_chars (bs : List Nat) (hlt : ∀ b ∈ bs, b < 256) :
    ∀ c ∈ (bytesToHex bs).toList, c ∈ ("0123456789abcdef".toList) := by
  intro c hc
  rw [bytesToHex] at hc
  have hc' : c ∈ (bs.map byteHex).flatten := hc
  rcases List.mem_flatten.mp hc' with ⟨l, hl, hcl⟩
  rcases List.mem_map.mp hl with ⟨b, hb, hbl⟩
  rw [← hbl, byteHex] at hcl
  have hblt := hlt b hb
  rcases List.mem_cons.mp hcl with h1 | h2
  · exact h1 ▸ hexDigit_mem (b / 16) (by omega)
  · rw [List.mem_singleton.mp h2]
    exact hexDigit_mem (b % 16) (by omega)

/-- C7 counterexample: two pull requests that differ only in the order of the
same two file paths — `["a", "a\na"]` versus `["a\na", "a"]` — normalize to
the same text (the newline join is not injective on path order) and therefore
collide in `hashPr`, contradicting "changing only the order of the same file
paths changes the hash". -/
theorem c7_counterexample :
    (⟨"X", 1, "T", "B", .OPEN, [⟨"a"⟩, ⟨"a\na"⟩]⟩ : GhPullRequest).files ≠
        (⟨"X", 1, "T", "B", .OPEN, [⟨"a\na"⟩, ⟨"a"⟩]⟩ : GhPullRequest).files ∧
      (⟨"X", 1, "T", "B", .OPEN, [⟨"a"⟩, ⟨"a\na"⟩]⟩ : GhPullRequest).files.Perm
        (⟨"X", 1, "T", "B", .OPEN, [⟨"a\na"⟩, ⟨"a"⟩]⟩ : GhPullRequest).files ∧
      hashPr ⟨"X", 1, "T", "B", .OPEN, [⟨"a"⟩, ⟨"a\na"⟩]⟩ =
        hashPr ⟨"X", 1, "T", "B", .OPEN, [⟨"a\na"⟩, ⟨"a"⟩]⟩ := by
  refine ⟨by decide, by decide, ?_⟩
  have hprep : prepPullRequest ⟨"X", 1, "T", "B", .OPEN, [⟨"a"⟩, ⟨"a\na"⟩]⟩ =
      prepPullRequest ⟨"X", 1, "T", "B", .OPEN, [⟨"a\na"⟩, ⟨"a"⟩]⟩ := by decide
  rw [hashPr, hashPr, hprep]

/-- C7 amended: `hashPr` is a pure function of the normalized content — it is
deterministic and independent of the item's identifier, number and state; its
output is always 64 lowercase hexadecimal characters; changing only the title,
or only the body, always changes the normalized text fed to SHA-256; and the
file-path list influences the hash only through its newline join, so two PRs
with equal normalized text (e.g. reordered paths whose joins coincide) always
collide. -/
theorem c7_amended :
    (∀ (id1 id2 : String) (n1 n2 : Nat) (s1 s2 : PrState) (t b : String)
        (fs : List GhFile),
      hashPr ⟨id1, n1, t, b, s1, fs⟩ = hashPr ⟨id2, n2, t, b, s2, fs⟩) ∧
    (∀ pr : GhPullRequest, (hashPr pr).length = 64 ∧
      ∀ c ∈ (hashPr pr).toList, c ∈ ("0123456789abcdef".toList)) ∧
    (∀ (t1 t2 b : String) (fs : List GhFile) (n : Nat) (i : String) (s : PrState),
      t1 ≠ t2 →
      prepPullRequest ⟨i, n, t1, b, s, fs⟩ ≠ prepPullRequest ⟨i, n, t2, b, s, fs⟩) ∧
    (∀ (t b1 b2 : String) (fs : List GhFile) (n : Nat) (i : String) (s : PrState),
      b1 ≠ b2 →
      prepPullRequest ⟨i, n, t, b1, s, fs⟩ ≠ prepPullRequest ⟨i, n, t, b2, s, fs⟩) ∧
    (∀ pr1 pr2 : GhPullRequest, prepPullRequest pr1 = prepPullRequest pr2 →
      hashPr pr1 = hashPr pr2) := by
  refine ⟨fun _ _ _ _ _ _ _ _ _ => rfl, ?_, ?_, ?_, ?_⟩
  · intro pr
    constructor
    · rw [hashPr, bytesToHex_length, sha256_length]
    · exact bytesToHex_chars _ (sha256_bytes_lt _)
  · intro t1 t2 b fs n i s hne heq
    apply hne
    have hdata := congrArg String.data heq
    simp only [prepPullRequest, String.data_append] at hdata
    have := List.append_cancel_right (List.append_cancel_right
      (List.append_cancel_right (List.append_cancel_right hdata)))
    exact congrArg String.mk this
  · intro t b1 b2 fs n i s hne heq
    apply hne
    have hdata := congrArg String.data heq
    simp only [prepPullRequest, String.data_append, List.append_assoc] at hdata
    have h1 := List.append_cancel_left hdata
    have h2 := List.append_cancel_left h1
    have h3 := List.append_cancel_right (by
      simpa only [← List.append_assoc] using h2)
    exact congrArg String.mk (List.append_cancel_right h3)
  · intro pr1 pr2 heq
    rw [hashPr, hashPr, heq]

/-- Witness for C7's amended theorem: distinct titles give distinct normalized
texts at a concrete pair, and the hash ignores identifier, number and state at
a concrete pair. -/
theorem c7_amended_witness :
    ("A" : String) ≠ ("B") ∧
      prepPullRequest ⟨"X", 1, "A", "b", .OPEN, []⟩ ≠
        prepPullRequest ⟨"X", 1, "B", "b", .OPEN, []⟩ ∧
      hashPr ⟨"i1", 1, "T", "B", .OPEN, [⟨"f"⟩]⟩ =
        hashPr ⟨"i2", 2, "T", "B", .CLOSED, [⟨"f"⟩]⟩ :=
  ⟨by decide,
   c7_amended.2.2.1 "A" "B" "b" [] 1 "X" .OPEN (by decide),
   c7_amended.1 "i1" "i2" 1 2 .OPEN .CLOSED "T" "B" [⟨"f"⟩]⟩

end Polarity

